import Mathlib

set_option maxRecDepth 100000

/-!
Shallow embedding of the v8wire repository (Go): the V8 Structured Clone
codec in pkg/v8serialize (deserializer, serializer, tags, value model) and
the wire primitives in internal/wire (reader, writer).

Conventions of the embedding:
* a Go byte is a `Nat` in 0..255; a Go `string` is its byte sequence
  (`List Nat`, UTF-8 for valid strings);
* a Go `float64` is its IEEE-754 bit pattern (`Nat < 2^64`); arithmetic on
  doubles is modelled as exact rational arithmetic followed by IEEE
  round-to-nearest-even, which is the IEEE-754 semantics of Go's
  float64 `+ - * /`;
* Go reference types that the decoder mutates after inserting them into the
  object-reference table (the `map[string]Value` of an Object, the backing
  array of a `[]Value` slice, the `*JSMap` and `*JSSet` cells) live in an
  explicit `Store`; a `Value` holds a handle (index) into the store, and a
  slice value holds a Go slice header (backing id, len, cap), so that Go's
  aliasing behaviour (shared backing, copied headers) is preserved;
* a Go `map[string]Value` is semantically an unordered dictionary (iteration
  order is unspecified and randomised by the runtime); the store represents
  a map cell canonically as an association list sorted by byte-wise
  lexicographic key order, with insertion replacing an existing key;
* fallible operations return `Except`/`DRes`; the recursive decoder and
  encoder take an explicit fuel parameter, with `DRes.fuelOut` marking fuel
  exhaustion (proved unreachable for the decoder when the fuel exceeds
  `4 * input length + 8`).
-/

/-- Error kinds of the library: the sentinel errors of pkg/v8serialize
(`ErrInvalidHeader` .. `ErrInvalidReference`) and of internal/wire
(`ErrUnexpectedEOF`, `ErrVarintOverflow`, and the ad-hoc negative-length
error of the string readers). A wrapped error (`fmt.Errorf("%w: ...")`)
is modelled by the sentinel it wraps. -/
inductive DErr where
  | invalidHeader
  | unsupportedVersion
  | unexpectedTag
  | malformedData
  | maxDepthExceeded
  | maxSizeExceeded
  | invalidReference
  | unexpectedEOF
  | varintOverflow
  | negativeLength
  /-- Not an error return of the Go code but a run-time panic (slice
  bounds out of range): reaching this outcome means the program crashes
  instead of returning. -/
  | panicSliceBounds
deriving DecidableEq

/-- The Go `Type` enum of pkg/v8serialize/types.go. -/
inductive VType where
  | undefined | null | bool | int32 | uint32 | double | bigint | vstring
  | date | regexp | object | array | vmap | vset | arrayBuffer
  | typedArray | dataView | hole | verror | boxedPrimitive
deriving DecidableEq

/-- A Go slice header for a `[]Value`: index of the backing array in the
store, current length and capacity (the offset is always 0 in this code:
every slice is created by `make` and only grown by `append`). Assigning a
slice to an `interface{}` field copies this header; the backing cells are
shared. -/
structure GoSlice where
  backing : Nat
  len : Nat
  cap : Nat
deriving DecidableEq

/-- The Go `Value` of pkg/v8serialize/types.go: `struct { typ Type; data
interface{} }`, with one constructor per (typ, data-shape) pair the codec
produces. Containers that are mutated through shared references after being
registered in the object table (`Object`: a Go map; `Array`: a slice;
`Map`/`Set`: pointers to `JSMap`/`JSSet`) store a handle into the `Store`;
the other payloads are immutable after construction and stored inline.
`date` holds the normalised `time.Time` as (seconds, nanoseconds in
[0,1e9)); `double` holds the IEEE bit pattern. The `Cause *Value` pointer
of `JSError` is modelled as a presence flag plus a value (`nil` is
`(false, undefined)`); it is never mutated after construction. -/
inductive Value where
  | undefined
  | null
  | hole
  | bool (b : Bool)
  | int32 (n : Int)
  | uint32 (n : Nat)
  | double (bits : Nat)
  | bigint (n : Int)
  | str (s : List Nat)
  | date (sec : Int) (nsec : Int)
  | object (h : Nat)
  | array (hdr : GoSlice)
  | jsmap (h : Nat)
  | jsset (h : Nat)
  | arrayBuffer (bytes : List Nat)
  | typedArray (buffer : List Nat) (byteOffset : Nat) (byteLength : Nat) (tyName : List Nat)
  | regexp (pattern : List Nat) (flags : List Nat)
  | jserror (name : List Nat) (message : List Nat) (stack : List Nat)
      (causePresent : Bool) (cause : Value)
  | boxed (primTy : VType) (inner : Value)
deriving DecidableEq

/-- `Value.Type()`: the `typ` field of the Go Value. -/
def Value.typ : Value → VType
  | .undefined => .undefined
  | .null => .null
  | .hole => .hole
  | .bool _ => .bool
  | .int32 _ => .int32
  | .uint32 _ => .uint32
  | .double _ => .double
  | .bigint _ => .bigint
  | .str _ => .vstring
  | .date _ _ => .date
  | .object _ => .object
  | .array _ => .array
  | .jsmap _ => .vmap
  | .jsset _ => .vset
  | .arrayBuffer _ => .arrayBuffer
  | .typedArray _ _ _ _ => .typedArray
  | .regexp _ _ => .regexp
  | .jserror _ _ _ _ _ => .verror
  | .boxed _ _ => .boxedPrimitive

/-- `Value.IsNumber()`: int32, uint32 or double. -/
def Value.isNumber : Value → Bool
  | .int32 _ => true
  | .uint32 _ => true
  | .double _ => true
  | _ => false

/-- `Value.IsString()`. -/
def Value.isString : Value → Bool
  | .str _ => true
  | _ => false

/-- The mutable heap cells of one decode/encode run: Go map cells for
Objects (canonically sorted association lists, see the header comment),
backing arrays of `[]Value` slices, and the `Entries`/`Values` fields of
`*JSMap`/`*JSSet`. -/
structure Store where
  maps : List (List (List Nat × Value))
  arrays : List (List Value)
  jsmaps : List (List (Value × Value))
  jssets : List (List Value)
deriving DecidableEq

def Store.empty : Store := ⟨[], [], [], []⟩

/-- Byte-wise lexicographic order on Go strings, the canonical order used
to represent the unordered Go map. -/
def strLt : List Nat → List Nat → Bool
  | [], [] => false
  | [], _ :: _ => true
  | _ :: _, [] => false
  | a :: s, b :: t => if a < b then true else if b < a then false else strLt s t

/-- Insertion into the canonical (sorted) representation of a Go map:
`m[k] = v` replaces the value if the key is present, else adds the pair.
Go map iteration order is unspecified, so the sorted form carries exactly
the information a Go map does. -/
def goMapInsert (k : List Nat) (v : Value) : List (List Nat × Value) → List (List Nat × Value)
  | [] => [(k, v)]
  | (k2, v2) :: rest =>
    if k = k2 then (k, v) :: rest
    else if strLt k k2 then (k, v) :: (k2, v2) :: rest
    else (k2, v2) :: goMapInsert k v rest

/-- Lookup in a Go map cell. -/
def goMapLookup (k : List Nat) : List (List Nat × Value) → Option Value
  | [] => none
  | (k2, v2) :: rest => if k = k2 then some v2 else goMapLookup k rest

/-- Options of the deserializer: the four knobs settable through
`WithMaxDepth`, `WithMaxSize`, `WithMaxArrayLen`, `WithMaxObjectKeys`,
with the defaults of `NewDeserializer`. All are Go `int`s. -/
structure DOpts where
  maxDepth : Int := 1000
  maxSize : Int := 0
  maxArrayLen : Int := 10000000
  maxObjectKeys : Int := 1000000
deriving DecidableEq

def defaultOpts : DOpts := {}

/-- State of a `Deserializer` together with its `wire.Reader`: the input
bytes and cursor of the reader, and the `depth`, option, `version`,
object-reference-table and heap state of the deserializer. -/
structure DState where
  data : List Nat
  pos : Nat
  depth : Nat
  opts : DOpts
  version : Nat
  objects : List Value
  store : Store
deriving DecidableEq

/-- Result of a fueled decoding step: a value with the updated state, an
error (the Go code discards the state when returning an error), or fuel
exhaustion (proved unreachable for sufficient fuel). -/
inductive DRes (α : Type) where
  | ok (a : α) (st : DState)
  | err (e : DErr)
  | fuelOut
deriving DecidableEq

/-- Result of a non-recursive (reader-level) operation. -/
abbrev RRes (α : Type) := Except DErr (α × DState)

/-- Sequencing of a reader-level step into a fueled computation. -/
def rbind {α β : Type} (r : RRes α) (f : α → DState → DRes β) : DRes β :=
  match r with
  | .ok (a, st) => f a st
  | .error e => .err e

/-- Sequencing of two fueled computations. -/
def dbind {α β : Type} (r : DRes α) (f : α → DState → DRes β) : DRes β :=
  match r with
  | .ok a st => f a st
  | .err e => .err e
  | .fuelOut => .fuelOut

/-! ## Wire primitives (internal/wire/reader.go) -/

/-- Little-endian interpretation of a byte list. -/
def leUint : List Nat → Nat
  | [] => 0
  | b :: rest => b + 256 * leUint rest

/-- Core loop of `Reader.ReadVarint`: reads base-128 little-endian bytes
from the remaining input, returning (value, bytes consumed). The overflow
guard is checked before accumulating, exactly as in the source; since the
guard keeps every contribution below 2^64 and the 7-bit groups are
disjoint, the Go `result |= uint64(b&0x7F) << shift` is plain addition. -/
def varintCore : List Nat → Nat → Nat → Except DErr (Nat × Nat)
  | [], _, _ => .error .unexpectedEOF
  | b :: rest, shift, acc =>
    if shift ≥ 64 ∨ (shift = 63 ∧ b > 1) then .error .varintOverflow
    else
      let acc2 := acc + (b % 128) * 2 ^ shift
      if b % 256 < 128 then .ok (acc2, 1)
      else
        match varintCore rest (shift + 7) acc2 with
        | .ok (v, c) => .ok (v, c + 1)
        | .error e => .error e

/-- `Reader.Peek`. -/
def peek (st : DState) : Except DErr Nat :=
  match st.data.drop st.pos with
  | [] => .error .unexpectedEOF
  | b :: _ => .ok b

/-- `Reader.ReadByte`. -/
def readByte (st : DState) : RRes Nat :=
  match st.data.drop st.pos with
  | [] => .error .unexpectedEOF
  | b :: _ => .ok (b, { st with pos := st.pos + 1 })

/-- Go `int` (64-bit two's-complement) addition of two non-negative
values: the mathematical sum wrapped into `[-2^63, 2^63)`. -/
def goIntSum (a b : Nat) : Int :=
  if (a + b) % 2 ^ 64 < 2 ^ 63 then (((a + b) % 2 ^ 64 : Nat) : Int)
  else (((a + b) % 2 ^ 64 : Nat) : Int) - 2 ^ 64

/-- `Reader.ReadBytes(n)`: the bounds check `r.pos+n > len(r.data)`
computes `r.pos + n` in Go `int` (wrapping 64-bit) arithmetic. When the
sum overflows to a negative value the check passes and the slice
expression `r.data[r.pos : r.pos+n]` panics (slice bounds out of range,
end below start); otherwise a passed check gives the in-range slice and
`r.pos += n`. -/
def readBytes (n : Nat) (st : DState) : RRes (List Nat) :=
  if goIntSum st.pos n > (st.data.length : Int) then .error .unexpectedEOF
  else if goIntSum st.pos n < (st.pos : Int) then .error .panicSliceBounds
  else .ok ((st.data.drop st.pos).take ((st.pos + n) % 2 ^ 64 - st.pos),
            { st with pos := (st.pos + n) % 2 ^ 64 })

/-- `Reader.ReadVarint`. -/
def readVarint (st : DState) : RRes Nat :=
  match varintCore (st.data.drop st.pos) 0 0 with
  | .ok (v, c) => .ok (v, { st with pos := st.pos + c })
  | .error e => .error e

/-- `Reader.ReadVarint32`. -/
def readVarint32 (st : DState) : RRes Nat :=
  match readVarint st with
  | .ok (v, st1) => if v > 4294967295 then .error .varintOverflow else .ok (v, st1)
  | .error e => .error e

/-- `wire.ZigZagDecode32`: `int32(n>>1) ^ -int32(n&1)`. For `n < 2^32`,
`n >> 1` fits in 31 bits so `int32(n>>1) = n / 2`, and xor with `-1`
(all ones) is the two's-complement map `x ↦ -x-1`. -/
def zigZagDecode32 (n : Nat) : Int :=
  if n % 2 = 0 then (n / 2 : Nat) else -((n / 2 : Nat) : Int) - 1

/-- `Reader.ReadZigZag32`. -/
def readZigZag32 (st : DState) : RRes Int :=
  match readVarint32 st with
  | .ok (v, st1) => .ok (zigZagDecode32 v, st1)
  | .error e => .error e

/-- `Reader.ReadDouble`: 8 bytes little-endian, as a bit pattern. -/
def readDouble (st : DState) : RRes Nat :=
  if st.pos + 8 ≤ st.data.length then
    .ok (leUint ((st.data.drop st.pos).take 8), { st with pos := st.pos + 8 })
  else .error .unexpectedEOF

/-- `Reader.AlignTo(boundary)`: advance to the next multiple of the
boundary, but only if that stays within bounds; no error. A non-positive
or non-power-of-two boundary is ignored. -/
def alignTo (boundary : Nat) (st : DState) : DState :=
  if boundary = 0 ∨ (boundary &&& (boundary - 1)) ≠ 0 then st
  else
    let remainder := st.pos % boundary
    if remainder ≠ 0 then
      let skip := boundary - remainder
      if st.pos + skip ≤ st.data.length then { st with pos := st.pos + skip } else st
    else st

/-! ## UTF-8 / UTF-16 (Go strings and unicode/utf8, unicode/utf16) -/

/-- UTF-8 encoding of one rune, as by Go's `string(rune)`: surrogates and
out-of-range values encode as U+FFFD (RuneError). -/
def utf8EncodeRune (r : Nat) : List Nat :=
  if r < 0x80 then [r]
  else if r < 0x800 then [0xC0 + r / 64, 0x80 + r % 64]
  else if 0xD800 ≤ r ∧ r ≤ 0xDFFF then [0xEF, 0xBF, 0xBD]
  else if r < 0x10000 then [0xE0 + r / 4096, 0x80 + (r / 64) % 64, 0x80 + r % 64]
  else if r ≤ 0x10FFFF then
    [0xF0 + r / 262144, 0x80 + (r / 4096) % 64, 0x80 + (r / 64) % 64, 0x80 + r % 64]
  else [0xEF, 0xBF, 0xBD]

/-- Go `string(runes)`. -/
def runesToUtf8 (rs : List Nat) : List Nat := (rs.map utf8EncodeRune).flatten

/-- Strict UTF-8 decoding of a byte list into runes; `none` iff the bytes
are not valid UTF-8 in the sense of Go's `utf8.ValidString` (overlong
forms, surrogates and values above U+10FFFF are invalid). For a valid
string this also gives the runes produced by Go's `for _, r := range s`. -/
def utf8Decode : List Nat → Option (List Nat)
  | [] => some []
  | b :: rest =>
    if b < 0x80 then (utf8Decode rest).map (fun rs => b :: rs)
    else if b < 0xC2 then none
    else if b < 0xE0 then
      match rest with
      | c1 :: rest2 =>
        if 0x80 ≤ c1 ∧ c1 < 0xC0 then
          (utf8Decode rest2).map (fun rs => ((b - 0xC0) * 64 + (c1 - 0x80)) :: rs)
        else none
      | [] => none
    else if b < 0xF0 then
      match rest with
      | c1 :: c2 :: rest2 =>
        if 0x80 ≤ c1 ∧ c1 < 0xC0 ∧ 0x80 ≤ c2 ∧ c2 < 0xC0 then
          let r := (b - 0xE0) * 4096 + (c1 - 0x80) * 64 + (c2 - 0x80)
          if r < 0x800 ∨ (0xD800 ≤ r ∧ r ≤ 0xDFFF) then none
          else (utf8Decode rest2).map (fun rs => r :: rs)
        else none
      | _ => none
    else if b < 0xF5 then
      match rest with
      | c1 :: c2 :: c3 :: rest2 =>
        if 0x80 ≤ c1 ∧ c1 < 0xC0 ∧ 0x80 ≤ c2 ∧ c2 < 0xC0 ∧ 0x80 ≤ c3 ∧ c3 < 0xC0 then
          let r := (b - 0xF0) * 262144 + (c1 - 0x80) * 4096 + (c2 - 0x80) * 64 + (c3 - 0x80)
          if r < 0x10000 ∨ r > 0x10FFFF then none
          else (utf8Decode rest2).map (fun rs => r :: rs)
        else none
      | _ => none
    else none

/-- Go `utf8.ValidString`. -/
def validString (s : List Nat) : Bool := (utf8Decode s).isSome

/-- Go `utf16.Decode`: surrogate pairs combine; unpaired surrogates become
U+FFFD. -/
def utf16DecodeUnits : List Nat → List Nat
  | [] => []
  | [u] => if u < 0xD800 ∨ 0xDFFF < u then [u] else [0xFFFD]
  | u :: l :: rest =>
    if u < 0xD800 ∨ 0xDFFF < u then u :: utf16DecodeUnits (l :: rest)
    else if u ≤ 0xDBFF then
      if 0xDC00 ≤ l ∧ l ≤ 0xDFFF then
        (0x10000 + (u - 0xD800) * 0x400 + (l - 0xDC00)) :: utf16DecodeUnits rest
      else 0xFFFD :: utf16DecodeUnits (l :: rest)
    else 0xFFFD :: utf16DecodeUnits (l :: rest)

/-- Split a byte list into little-endian 16-bit code units (the read loop
of `Reader.ReadTwoByteString`); the caller guarantees an even length. -/
def bytesToUnitsLE : List Nat → List Nat
  | b0 :: b1 :: rest => (b0 + 256 * b1) :: bytesToUnitsLE rest
  | _ => []

/-- `Reader.ReadOneByteString(length)`: Latin-1 bytes to a Go (UTF-8)
string; each byte is one rune U+0000..U+00FF. -/
def readOneByteStringWire (length : Int) (st : DState) : RRes (List Nat) :=
  if length < 0 then .error .negativeLength
  else if length = 0 then .ok ([], st)
  else
    match readBytes length.toNat st with
    | .ok (bytes, st1) => .ok (runesToUtf8 bytes, st1)
    | .error e => .error e

/-- `Reader.ReadTwoByteString(length)`: aligns to 2, reads `length` UTF-16LE
code units, decodes them (unpaired surrogates to U+FFFD) into a Go string. -/
def readTwoByteStringWire (length : Int) (st : DState) : RRes (List Nat) :=
  if length < 0 then .error .negativeLength
  else if length = 0 then .ok ([], st)
  else
    let st1 := alignTo 2 st
    if st1.pos + length.toNat * 2 ≤ st1.data.length then
      let bytes := (st1.data.drop st1.pos).take (length.toNat * 2)
      .ok (runesToUtf8 (utf16DecodeUnits (bytesToUnitsLE bytes)),
           { st1 with pos := st1.pos + length.toNat * 2 })
    else .error .unexpectedEOF

/-! ## IEEE-754 float64 as bit patterns

Go's `float64` is modelled by its 64-bit pattern. Arithmetic is exact
rational arithmetic followed by IEEE round-to-nearest-even, which is the
IEEE-754 (and hence Go) semantics of `+ - * /` on finite operands.
Rationals are represented as integer pairs with a positive denominator,
not necessarily reduced (`ExactQ`); comparisons cross-multiply, so every
operation evaluates by plain integer reduction. -/

def floatSignBit (bits : Nat) : Nat := bits / 2 ^ 63 % 2
def floatExpField (bits : Nat) : Nat := bits / 2 ^ 52 % 2 ^ 11
def floatFrac (bits : Nat) : Nat := bits % 2 ^ 52

def floatIsNaN (bits : Nat) : Bool := floatExpField bits = 2047 ∧ floatFrac bits ≠ 0
def floatIsInf (bits : Nat) : Bool := floatExpField bits = 2047 ∧ floatFrac bits = 0

/-- Quiet NaN produced by Go arithmetic. -/
def nanBits : Nat := 0x7FF8000000000000

def infBits (sign : Nat) : Nat := sign * 2 ^ 63 + 2047 * 2 ^ 52

/-- An exact rational as an integer pair. Every constructor below keeps
the denominator positive, and the comparison/equality operations
cross-multiply, so the pairs need not be reduced. -/
structure ExactQ where
  num : Int
  den : Int
deriving DecidableEq

def qOfInt (n : Int) : ExactQ := ⟨n, 1⟩

def qZero : ExactQ := ⟨0, 1⟩

def qHalf : ExactQ := ⟨1, 2⟩

def qOne : ExactQ := ⟨1, 1⟩

def qTwo : ExactQ := ⟨2, 1⟩

def qTen : ExactQ := ⟨10, 1⟩

def qAdd (a b : ExactQ) : ExactQ := ⟨a.num * b.den + b.num * a.den, a.den * b.den⟩

def qSub (a b : ExactQ) : ExactQ := ⟨a.num * b.den - b.num * a.den, a.den * b.den⟩

def qMul (a b : ExactQ) : ExactQ := ⟨a.num * b.num, a.den * b.den⟩

/-- Division (total; division by zero yields 0, unreachable at every call
site); the divisor's sign moves to the numerator to keep the denominator
positive. -/
def qDiv (a b : ExactQ) : ExactQ :=
  if b.num = 0 then qZero
  else if b.num < 0 then ⟨-(a.num * b.den), a.den * -b.num⟩
  else ⟨a.num * b.den, a.den * b.num⟩

def qNeg (a : ExactQ) : ExactQ := ⟨-a.num, a.den⟩

def qAbs (a : ExactQ) : ExactQ := if a.num < 0 then ⟨-a.num, a.den⟩ else a

def qLt (a b : ExactQ) : Bool := a.num * b.den < b.num * a.den

def qLe (a b : ExactQ) : Bool := a.num * b.den ≤ b.num * a.den

def qEqB (a b : ExactQ) : Bool := a.num * b.den = b.num * a.den

/-- Floor of an exact rational: floor division of the integer pair. -/
def qFloor (a : ExactQ) : Int := Int.fdiv a.num a.den

def ratPow2 (e : Int) : ExactQ :=
  if 0 ≤ e then ⟨2 ^ e.toNat, 1⟩ else ⟨1, 2 ^ (-e).toNat⟩

def ratPow10 (e : Int) : ExactQ :=
  if 0 ≤ e then ⟨10 ^ e.toNat, 1⟩ else ⟨1, 10 ^ (-e).toNat⟩

/-- Absolute value of a finite float64, as an exact rational. -/
def floatAbsVal (bits : Nat) : ExactQ :=
  if floatExpField bits = 0 then qMul ⟨floatFrac bits, 1⟩ (ratPow2 (-1074))
  else qMul ⟨(2 ^ 52 + floatFrac bits : Nat), 1⟩ (ratPow2 ((floatExpField bits : Int) - 1075))

/-- Signed value of a finite float64. -/
def floatSignedVal (bits : Nat) : ExactQ :=
  if floatSignBit bits = 1 then qNeg (floatAbsVal bits) else floatAbsVal bits

/-- Round a rational to the nearest integer, ties to even. -/
def ratRoundHalfEven (q : ExactQ) : Int :=
  let f := qFloor q
  let r := qSub q (qOfInt f)
  if qLt r qHalf then f else if qLt qHalf r then f + 1 else if f % 2 = 0 then f else f + 1

/-- Largest `k` with `2^k ≤ a`, for `a ≥ 1` (fueled loop; the fuel covers
every value arising from float64 arithmetic). -/
def log2floorUp : Nat → ExactQ → Int → Int
  | 0, _, acc => acc
  | n + 1, a, acc => if qLt a qTwo then acc else log2floorUp n (qDiv a qTwo) (acc + 1)

def log2floorDown : Nat → ExactQ → Int → Int
  | 0, _, acc => acc
  | n + 1, a, acc => if qLe qOne a then acc else log2floorDown n (qMul a qTwo) (acc - 1)

/-- Largest `k` with `2^k ≤ a`, for positive `a`. -/
def log2floorRat (a : ExactQ) : Int :=
  if qLe qOne a then log2floorUp 4400 a 0 else log2floorDown 4400 (qMul a qTwo) (-1)

/-- IEEE-754 binary64 round-to-nearest-even of an exact rational:
the target bit pattern of any correctly rounded operation (sign of an
exact zero result collapses to +0). -/
def roundRatToFloatBits (q : ExactQ) : Nat :=
  if q.num = 0 then 0
  else
    let s : Nat := if q.num < 0 then 1 else 0
    let a := qAbs q
    let e := log2floorRat a
    let eEff : Int := max e (-1022)
    let m : Int := ratRoundHalfEven (qDiv a (ratPow2 (eEff - 52)))
    let m2 : Int := if m = 2 ^ 53 then 2 ^ 52 else m
    let e2 : Int := if m = 2 ^ 53 then eEff + 1 else eEff
    if e2 > 1023 then infBits s
    else if m2 < 2 ^ 52 then s * 2 ^ 63 + m2.toNat
    else s * 2 ^ 63 + (e2 + 1023).toNat * 2 ^ 52 + (m2 - 2 ^ 52).toNat

/-- Go `float64(n)` for an integer `n` (exact when `|n| < 2^53`). -/
def floatFromInt (n : Int) : Nat := roundRatToFloatBits (qOfInt n)

/-- Go `int64(f)` on the gc/amd64 toolchain the repository targets:
truncation toward zero; NaN, infinities and out-of-range values give
`math.MinInt64` (the Go spec leaves these implementation-specific; the
amd64 `cvttsd2si` instruction produces `0x8000000000000000`). -/
def floatTruncToInt (bits : Nat) : Int :=
  if floatIsNaN bits ∨ floatIsInf bits then -(2 ^ 63)
  else
    let a := qFloor (floatAbsVal bits)
    let t : Int := if floatSignBit bits = 1 then -a else a
    if t < -(2 ^ 63) ∨ (2 ^ 63 : Int) ≤ t then -(2 ^ 63) else t

/-- Gap from a finite positive float64 to its successor (one ulp). -/
def floatSuccGap (bits : Nat) : ExactQ :=
  if floatExpField bits = 0 then ratPow2 (-1074)
  else ratPow2 ((floatExpField bits : Int) - 1075)

/-- Gap from a finite positive float64 down to its predecessor. -/
def floatPredGap (bits : Nat) : ExactQ :=
  if floatExpField bits = 0 then ratPow2 (-1074)
  else if floatFrac bits = 0 ∧ 1 < floatExpField bits then
    ratPow2 ((floatExpField bits : Int) - 1076)
  else ratPow2 ((floatExpField bits : Int) - 1075)

/-- Does the positive rational `c` round (nearest-even) to the finite
nonzero float64 whose absolute value has the bit pattern `bits` (sign
cleared)? Decided through the rounding interval: strictly between the
half-gap boundaries, or on a boundary when the mantissa is even. -/
def roundsToDouble (c : ExactQ) (bits : Nat) : Bool :=
  let a := floatAbsVal bits
  let lo := qSub a (qMul (floatPredGap bits) qHalf)
  let hi := qAdd a (qMul (floatSuccGap bits) qHalf)
  (qLt lo c ∧ qLt c hi) ∨ (floatFrac bits % 2 = 0 ∧ (qEqB c lo ∨ qEqB c hi))

/-- ASCII decimal digits of a natural number (fuel-bounded helper). -/
def natDigitsAux : Nat → Nat → List Nat
  | 0, _ => []
  | fuel + 1, n => if n = 0 then [] else natDigitsAux fuel (n / 10) ++ [48 + n % 10]

def natDigits (n : Nat) : List Nat := if n = 0 then [48] else natDigitsAux 40 n

/-- Go `fmt.Sprintf("%d", n)` for an integer. -/
def intDecimalString (n : Int) : List Nat :=
  if n < 0 then 45 :: natDigits n.natAbs else natDigits n.toNat

/-- Largest `k` with `10^k ≤ a`, for positive `a` (fueled like
`log2floorRat`). -/
def log10floorUp : Nat → ExactQ → Int → Int
  | 0, _, acc => acc
  | n + 1, a, acc => if qLt a qTen then acc else log10floorUp n (qDiv a qTen) (acc + 1)

def log10floorDown : Nat → ExactQ → Int → Int
  | 0, _, acc => acc
  | n + 1, a, acc => if qLe qOne a then acc else log10floorDown n (qMul a qTen) (acc - 1)

def log10floorRat (a : ExactQ) : Int :=
  if qLe qOne a then log10floorUp 1400 a 0 else log10floorDown 1400 (qMul a qTen) (-1)

/-- One step of the shortest-representation search of
`strconv.FormatFloat(f, 'g', -1, 64)`: at precision `d`, the two
`d`-digit candidates bracketing the value; succeed with whichever parses
back to the same float64 (preferring the closer one, ties to an even last
digit), else try `d + 1`. Returns the digit block and the decimal
exponent. -/
def shortestSearch (a : ExactQ) (bits : Nat) (k : Int) : Nat → Nat → (Nat × Int)
  | _, 0 => ((qFloor (qDiv a (ratPow10 (k - 16)))).toNat, k)
  | d, fuel + 1 =>
    let scale := ratPow10 (k - (d : Int) + 1)
    let n0 := (qFloor (qDiv a scale)).toNat
    let c0 := qMul (qOfInt (n0 : Int)) scale
    let c1 := qMul (qOfInt ((n0 : Int) + 1)) scale
    let ok0 := roundsToDouble c0 bits
    let ok1 := roundsToDouble c1 bits
    let pick : Option Nat :=
      if ok0 ∧ ok1 then
        if qLt (qSub a c0) (qSub c1 a) then some n0
        else if qLt (qSub c1 a) (qSub a c0) then some (n0 + 1)
        else if n0 % 2 = 0 then some n0 else some (n0 + 1)
      else if ok0 then some n0
      else if ok1 then some (n0 + 1)
      else none
    match pick with
    | some n => if n = 10 ^ d then (10 ^ (d - 1), k + 1) else (n, k)
    | none => shortestSearch a bits k (d + 1) fuel

/-- Exponent suffix of Go's `%e` form: `e` then a sign then at least two
digits. -/
def expSuffix (k : Int) : List Nat :=
  let ka := k.natAbs
  [101] ++ (if k < 0 then [45] else [43]) ++ (if ka < 10 then 48 :: natDigits ka else natDigits ka)

/-- Lay out a digit block `digits` with decimal exponent `k` in the `%g`
style of Go's strconv with shortest precision: scientific form when
`k < -4` or `k ≥ 6` (the `eprec = 6` rule of strconv), else plain decimal
form. -/
def gLayout (digits : List Nat) (k : Int) : List Nat :=
  if k < -4 ∨ 6 ≤ k then
    match digits with
    | [] => []
    | d0 :: rest => (if rest = [] then [d0] else d0 :: 46 :: rest) ++ expSuffix k
  else if 0 ≤ k then
    let k1 := k.toNat + 1
    if digits.length ≤ k1 then digits ++ List.replicate (k1 - digits.length) 48
    else digits.take k1 ++ [46] ++ digits.drop k1
  else [48, 46] ++ List.replicate (-k - 1).toNat 48 ++ digits

/-- Go `fmt.Sprintf("%g", f)` for a float64 given by its bit pattern:
`strconv.FormatFloat(f, 'g', -1, 64)` — shortest decimal digits that parse
back to the same float64, formatted with the `eprec = 6` exponent rule.
Specials follow fmt: `NaN`, `+Inf`, `-Inf`; zeros print `0` / `-0`. -/
def formatDoubleG (bits : Nat) : List Nat :=
  if floatIsNaN bits then [78, 97, 78]
  else if floatIsInf bits then
    (if floatSignBit bits = 1 then [45] else [43]) ++ [73, 110, 102]
  else if floatExpField bits = 0 ∧ floatFrac bits = 0 then
    if floatSignBit bits = 1 then [45, 48] else [48]
  else
    let a := floatAbsVal bits
    let k := log10floorRat a
    let (n, k2) := shortestSearch a bits k 1 17
    (if floatSignBit bits = 1 then [45] else []) ++ gLayout (natDigits n) k2


/-! ## Store operations (the mutable cells of one decoder run) -/

def Store.allocMap (s : Store) : Nat × Store :=
  (s.maps.length, { s with maps := s.maps ++ [[]] })

def Store.mapSet (s : Store) (h : Nat) (k : List Nat) (v : Value) : Store :=
  { s with maps := s.maps.set h (goMapInsert k v (s.maps.getD h [])) }

def Store.allocArray (s : Store) (cells : List Value) : Nat × Store :=
  (s.arrays.length, { s with arrays := s.arrays ++ [cells] })

def Store.arraySet (s : Store) (h i : Nat) (v : Value) : Store :=
  { s with arrays := s.arrays.set h ((s.arrays.getD h []).set i v) }

def Store.allocJsMap (s : Store) : Nat × Store :=
  (s.jsmaps.length, { s with jsmaps := s.jsmaps ++ [[]] })

def Store.setJsMap (s : Store) (h : Nat) (entries : List (Value × Value)) : Store :=
  { s with jsmaps := s.jsmaps.set h entries }

def Store.allocJsSet (s : Store) : Nat × Store :=
  (s.jssets.length, { s with jssets := s.jssets ++ [[]] })

def Store.setJsSet (s : Store) (h : Nat) (vals : List Value) : Store :=
  { s with jssets := s.jssets.set h vals }

/-- Go `append` on a `[]Value`: within capacity it writes the backing cell
at index `len` and grows the header; at capacity it allocates a fresh
backing (the decoder never hits this branch: `readDenseArray` appends
exactly `cap` times). A `make([]Value, 0, c)` backing is `c` zero Values
(`Value.undefined`). -/
def sliceAppend (store : Store) (hdr : GoSlice) (v : Value) : GoSlice × Store :=
  if hdr.len < hdr.cap then
    (⟨hdr.backing, hdr.len + 1, hdr.cap⟩, store.arraySet hdr.backing hdr.len v)
  else
    let newcap := max (2 * hdr.cap) 1
    let old := (store.arrays.getD hdr.backing []).take hdr.len
    let cells := old ++ [v] ++ List.replicate (newcap - hdr.len - 1) Value.undefined
    let (b2, store2) := store.allocArray cells
    (⟨b2, hdr.len + 1, newcap⟩, store2)

/-! ## Tags (pkg/v8serialize/tags.go) -/

def tagVersion : Nat := 255
def tagNull : Nat := 48
def tagUndefined : Nat := 95
def tagTrue : Nat := 84
def tagFalse : Nat := 70
def tagInt32 : Nat := 73
def tagUint32 : Nat := 85
def tagDouble : Nat := 78
def tagBigInt : Nat := 90
def tagDate : Nat := 68
def tagOneByteString : Nat := 34
def tagTwoByteString : Nat := 99
def tagBeginJSObject : Nat := 111
def tagEndJSObject : Nat := 123
def tagBeginDenseArray : Nat := 65
def tagEndDenseArray : Nat := 36
def tagBeginSparseArray : Nat := 97
def tagEndSparseArray : Nat := 64
def tagHole : Nat := 45
def tagObjectReference : Nat := 94
def tagBeginMap : Nat := 59
def tagEndMap : Nat := 58
def tagBeginSet : Nat := 39
def tagEndSet : Nat := 44
def tagArrayBuffer : Nat := 66
def tagResizableArrayBuffer : Nat := 126
def tagArrayBufferTransfer : Nat := 116
def tagSharedArrayBuffer : Nat := 117
def tagTypedArray : Nat := 92
def tagRegExp : Nat := 82
def tagNumberObject : Nat := 110
def tagBigIntObject : Nat := 122
def tagTrueObject : Nat := 121
def tagFalseObject : Nat := 120
def tagStringObject : Nat := 115
def tagError : Nat := 114
def tagPadding : Nat := 0

def minVersion : Nat := 13
def maxVersion : Nat := 15

/-- ASCII codes of a character list (for the Go string constants). -/
def ascii (l : List Char) : List Nat := l.map Char.toNat

/-! ## Non-recursive read handlers (pkg/v8serialize deserializer) -/

/-- Lift a reader-level value read into the fueled result type. -/
def rlift (r : RRes Value) : DRes Value :=
  match r with
  | .ok (v, st) => .ok v st
  | .error e => .err e

/-- Model of `_, _ = d.reader.ReadByte()` after a successful peek: the
error is discarded, so on failure the state is unchanged. -/
def consumeIgnore (st : DState) : DState :=
  match readByte st with
  | .ok (_, st1) => st1
  | .error _ => st

/-- `Value.AsString` (callers guard with `IsString`; the panic branch is
unreachable). -/
def Value.asString : Value → List Nat
  | .str s => s
  | _ => []

/-- Key stringification switch of `Deserializer.readObject`: String keys
keep their text; Int32/Uint32 are `fmt.Sprintf("%d", ·)`; Double keys are
`fmt.Sprintf("%g", ·)`; anything else is `ErrMalformedData`. -/
def objectKeyString : Value → Except DErr (List Nat)
  | .str s => .ok s
  | .int32 n => .ok (intDecimalString n)
  | .uint32 n => .ok (intDecimalString (n : Int))
  | .double bits => .ok (formatDoubleG bits)
  | _ => .error .malformedData

/-- `int(key.AsNumber())` of `readSparseArray`: the number as float64,
truncated to a Go int (see `floatTruncToInt`); exact for int32/uint32
since `float64(n)` is exact below 2^53. Unreachable default 0 (AsNumber
panics on non-numbers; the caller guards with `IsNumber`). -/
def goNumberTruncInt : Value → Int
  | .int32 n => n
  | .uint32 n => (n : Int)
  | .double bits => floatTruncToInt bits
  | _ => 0

/-- `Deserializer.readInt32`. -/
def readInt32V (st : DState) : RRes Value :=
  match readZigZag32 st with
  | .ok (n, st1) => .ok (.int32 n, st1)
  | .error e => .error e

/-- `Deserializer.readUint32`. -/
def readUint32V (st : DState) : RRes Value :=
  match readVarint32 st with
  | .ok (n, st1) => .ok (.uint32 n, st1)
  | .error e => .error e

/-- `Deserializer.readDouble`. -/
def readDoubleV (st : DState) : RRes Value :=
  match readDouble st with
  | .ok (bits, st1) => .ok (.double bits, st1)
  | .error e => .error e

/-- `Deserializer.readBigInt`: varint bitfield (bit 0 sign, bits 1+ byte
length), then the magnitude little-endian; zero magnitude is `+0` even
with the sign bit. -/
def readBigIntV (st : DState) : RRes Value :=
  match readVarint st with
  | .error e => .error e
  | .ok (bitfield, st1) =>
    let negative := bitfield % 2 = 1
    let byteLength := bitfield / 2
    if byteLength = 0 then .ok (.bigint 0, st1)
    else
      match readBytes byteLength st1 with
      | .error e => .error e
      | .ok (bytes, st2) =>
        let magnitude : Int := leUint bytes
        .ok (.bigint (if negative then -magnitude else magnitude), st2)

/-- `Deserializer.readOneByteString` (registers the string in the object
reference table). -/
def readOneByteStringV (st : DState) : RRes Value :=
  match readVarint32 st with
  | .error e => .error e
  | .ok (length, st1) =>
    match readOneByteStringWire (length : Int) st1 with
    | .error e => .error e
    | .ok (s, st2) =>
      let v := Value.str s
      .ok (v, { st2 with objects := st2.objects ++ [v] })

/-- `Deserializer.readTwoByteString`: the varint is a byte length,
halved (Go integer division) to a code-unit count; registers the string. -/
def readTwoByteStringV (st : DState) : RRes Value :=
  match readVarint32 st with
  | .error e => .error e
  | .ok (byteLength, st1) =>
    let utf16Length := byteLength / 2
    match readTwoByteStringWire (utf16Length : Int) st1 with
    | .error e => .error e
    | .ok (s, st2) =>
      let v := Value.str s
      .ok (v, { st2 with objects := st2.objects ++ [v] })

/-- Go `time.Unix(sec, nsec)` normalisation of nanoseconds into [0, 1e9)
(truncated Go integer division, then sign fix-up). -/
def timeUnixNorm (sec nsec : Int) : Int × Int :=
  if nsec < 0 ∨ 1000000000 ≤ nsec then
    let n := Int.tdiv nsec 1000000000
    let sec2 := sec + n
    let nsec2 := nsec - n * 1000000000
    if nsec2 < 0 then (sec2 - 1, nsec2 + 1000000000) else (sec2, nsec2)
  else (sec, nsec)

def f1000 : Nat := floatFromInt 1000
def f1e6 : Nat := floatFromInt 1000000

/-- Go float64 division/multiplication/subtraction on bit patterns: NaN
propagates; infinite operands follow IEEE (collapsed to NaN only where
IEEE prescribes NaN); finite operands are exact rational arithmetic
rounded to nearest-even. A `-0` result of an exact-zero outcome collapses
to `+0` (irrelevant to every use below). -/
def floatDiv (x y : Nat) : Nat :=
  if floatIsNaN x ∨ floatIsNaN y then nanBits
  else if floatIsInf x then
    if floatIsInf y then nanBits else infBits ((floatSignBit x + floatSignBit y) % 2)
  else if floatIsInf y then 0
  else if (floatSignedVal y).num = 0 then
    if (floatSignedVal x).num = 0 then nanBits
    else infBits ((floatSignBit x + floatSignBit y) % 2)
  else roundRatToFloatBits (qDiv (floatSignedVal x) (floatSignedVal y))

def floatMul (x y : Nat) : Nat :=
  if floatIsNaN x ∨ floatIsNaN y then nanBits
  else if floatIsInf x ∨ floatIsInf y then
    if (floatSignedVal x).num = 0 ∧ ¬ floatIsInf x then nanBits
    else if (floatSignedVal y).num = 0 ∧ ¬ floatIsInf y then nanBits
    else infBits ((floatSignBit x + floatSignBit y) % 2)
  else roundRatToFloatBits (qMul (floatSignedVal x) (floatSignedVal y))

def floatSub (x y : Nat) : Nat :=
  if floatIsNaN x ∨ floatIsNaN y then nanBits
  else if floatIsInf x then
    if floatIsInf y then
      if floatSignBit x = floatSignBit y then nanBits else infBits (floatSignBit x)
    else infBits (floatSignBit x)
  else if floatIsInf y then infBits ((floatSignBit y + 1) % 2)
  else roundRatToFloatBits (qSub (floatSignedVal x) (floatSignedVal y))

/-- `Deserializer.readDate`: 8-byte double of epoch milliseconds;
`sec := int64(ms / 1000)`, `nsec := int64((ms - float64(sec)*1000) * 1e6)`,
then `time.Unix(sec, nsec).UTC()`. Registers the date. -/
def readDateV (st : DState) : RRes Value :=
  match readDouble st with
  | .error e => .error e
  | .ok (msBits, st1) =>
    let sec := floatTruncToInt (floatDiv msBits f1000)
    let nsec := floatTruncToInt (floatMul (floatSub msBits (floatMul (floatFromInt sec) f1000)) f1e6)
    let (sec2, nsec2) := timeUnixNorm sec nsec
    let v := Value.date sec2 nsec2
    .ok (v, { st1 with objects := st1.objects ++ [v] })

/-- `Deserializer.readObjectReference`: varint id, bounds-checked against
the object table. -/
def readObjectReferenceV (st : DState) : RRes Value :=
  match readVarint32 st with
  | .error e => .error e
  | .ok (id, st1) =>
    if st1.objects.length ≤ id then .error .invalidReference
    else .ok (st1.objects.getD id Value.undefined, st1)

/-- `Deserializer.readArrayBuffer` (the copy of the input bytes is the
list itself). -/
def readArrayBufferV (st : DState) : RRes Value :=
  match readVarint32 st with
  | .error e => .error e
  | .ok (byteLength, st1) =>
    match readBytes byteLength st1 with
    | .error e => .error e
    | .ok (bytes, st2) =>
      let v := Value.arrayBuffer bytes
      .ok (v, { st2 with objects := st2.objects ++ [v] })

/-- TypedArray type-id to name switch of `Deserializer.readTypedArray`. -/
def typedArrayName (t : Nat) : List Nat :=
  if t = 0 then ascii ['I','n','t','8','A','r','r','a','y']
  else if t = 1 then ascii ['U','i','n','t','8','A','r','r','a','y']
  else if t = 2 then ascii ['U','i','n','t','8','C','l','a','m','p','e','d','A','r','r','a','y']
  else if t = 3 then ascii ['I','n','t','1','6','A','r','r','a','y']
  else if t = 4 then ascii ['U','i','n','t','1','6','A','r','r','a','y']
  else if t = 5 then ascii ['I','n','t','3','2','A','r','r','a','y']
  else if t = 6 then ascii ['U','i','n','t','3','2','A','r','r','a','y']
  else if t = 7 then ascii ['F','l','o','a','t','3','2','A','r','r','a','y']
  else if t = 8 then ascii ['F','l','o','a','t','6','4','A','r','r','a','y']
  else if t = 9 then ascii ['D','a','t','a','V','i','e','w']
  else if t = 10 then ascii ['F','l','o','a','t','1','6','A','r','r','a','y']
  else if t = 11 then ascii ['B','i','g','I','n','t','6','4','A','r','r','a','y']
  else if t = 12 then ascii ['B','i','g','U','i','n','t','6','4','A','r','r','a','y']
  else ascii ['T','y','p','e','d','A','r','r','a','y','('] ++ natDigits t ++ [41]

/-- `Deserializer.readTypedArray`: sub-kind byte, varint byte length, raw
bytes; offset 0 and length = byte length in this implementation. -/
def readTypedArrayV (st : DState) : RRes Value :=
  match readByte st with
  | .error e => .error e
  | .ok (arrayType, st1) =>
    match readVarint32 st1 with
    | .error e => .error e
    | .ok (byteLength, st2) =>
      match readBytes byteLength st2 with
      | .error e => .error e
      | .ok (buf, st3) =>
        let v := Value.typedArray buf 0 buf.length (typedArrayName arrayType)
        .ok (v, { st3 with objects := st3.objects ++ [v] })

/-- `Deserializer.readNumberObject`: boxed Number (double payload). -/
def readNumberObjectV (st : DState) : RRes Value :=
  match readDouble st with
  | .error e => .error e
  | .ok (bits, st1) =>
    let v := Value.boxed .double (.double bits)
    .ok (v, { st1 with objects := st1.objects ++ [v] })

/-- `Deserializer.readTrueObject`. -/
def readTrueObjectV (st : DState) : RRes Value :=
  let v := Value.boxed .bool (.bool true)
  .ok (v, { st with objects := st.objects ++ [v] })

/-- `Deserializer.readFalseObject`. -/
def readFalseObjectV (st : DState) : RRes Value :=
  let v := Value.boxed .bool (.bool false)
  .ok (v, { st with objects := st.objects ++ [v] })

/-- RegExp flag bitfield to flag string, canonical order g i m s u y. -/
def regexpFlagsOf (bits : Nat) : List Nat :=
  (if bits &&& 1 ≠ 0 then [103] else []) ++
  (if bits &&& 2 ≠ 0 then [105] else []) ++
  (if bits &&& 4 ≠ 0 then [109] else []) ++
  (if bits &&& 8 ≠ 0 then [115] else []) ++
  (if bits &&& 16 ≠ 0 then [117] else []) ++
  (if bits &&& 32 ≠ 0 then [121] else [])

/-- Error sub-protocol field state while reading an Error object. -/
structure ErrFields where
  name : List Nat
  message : List Nat
  stack : List Nat
  causePresent : Bool
  cause : Value
deriving DecidableEq

/-- Error type byte to name (`readError`); unknown bytes fall back to
generic `Error`. -/
def errorTypeName (t : Nat) : List Nat :=
  if t = 69 then ascii ['E','v','a','l','E','r','r','o','r']
  else if t = 82 then ascii ['R','a','n','g','e','E','r','r','o','r']
  else if t = 70 then ascii ['R','e','f','e','r','e','n','c','e','E','r','r','o','r']
  else if t = 83 then ascii ['S','y','n','t','a','x','E','r','r','o','r']
  else if t = 84 then ascii ['T','y','p','e','E','r','r','o','r']
  else if t = 85 then ascii ['U','R','I','E','r','r','o','r']
  else ascii ['E','r','r','o','r']

/-- The assignment step at the bottom of the `readSparseArray` pair loop:
`if key.IsNumber() { idx := int(key.AsNumber()); if idx >= 0 && idx <
len(arr) { arr[idx] = val } }` — a non-numeric key, or a truncated index
outside `[0, len)`, leaves the array untouched (and the loop continues;
no error path exists here). -/
def sparseStorePair (store : Store) (hdr : GoSlice) (key val : Value) : Store :=
  if key.isNumber then
    let idx := goNumberTruncInt key
    if 0 ≤ idx ∧ idx < (hdr.len : Int) then store.arraySet hdr.backing idx.toNat val
    else store
  else store

/-! ## The recursive decoder (readValue and the container handlers)

The mutually recursive Go functions are modelled as one step function
`decodeStep` over a call type `DCall` (one constructor per Go function),
iterated by `decodeRun` with an explicit fuel via `Nat.rec` (which the
kernel unfolds one step at a time). `decodeRun fuel` returns
`DRes.fuelOut` when the fuel hits 0; `decoder_progress` below shows fuel
`4 * remaining + c` never runs out, so the top-level entry with fuel
`4 * |input| + 8` is total in the Go sense: it returns a value or an
error on every input. -/

/-- One call frame of the recursive decoder; each constructor is one Go
function (or one loop inside one): `value` is `readValue`, `skipPad` its
padding loop, `dispatch` its tag switch, `objBody`/`objPairs` are
`readObject` and its property loop, `denseBody`/`denseElems`/`denseExtra`
are `readDenseArray` with its element and extra-property loops,
`sparseBody`/`sparsePairs` are `readSparseArray`, `mapBody`/`mapPairs`
are `readMap`, `setBody`/`setVals` are `readSet`, and the rest are
`readRegExp`, `readStringObject`, `readBigIntObject`, `readError` with
its sub-tag loop `errorProps`. -/
inductive DCall where
  | value (st : DState)
  | skipPad (st : DState)
  | dispatch (tag : Nat) (st : DState)
  | objBody (st : DState)
  | objPairs (h : Nat) (st : DState)
  | denseBody (st : DState)
  | denseElems (count : Nat) (hdr : GoSlice) (st : DState)
  | denseExtra (st : DState)
  | sparseBody (st : DState)
  | sparsePairs (hdr : GoSlice) (st : DState)
  | mapBody (st : DState)
  | mapPairs (entries : List (Value × Value)) (st : DState)
  | setBody (st : DState)
  | setVals (vals : List Value) (st : DState)
  | regexpBody (st : DState)
  | stringObjBody (st : DState)
  | bigintObjBody (st : DState)
  | errorBody (st : DState)
  | errorProps (f : ErrFields) (st : DState)
deriving DecidableEq

/-- Return payload of a decoder call: the Go return value of the function
the `DCall` constructor stands for. -/
inductive DOut where
  | val (v : Value)
  | unit
  | hdr (h : GoSlice)
  | entries (l : List (Value × Value))
  | vals (l : List Value)
  | errf (f : ErrFields)
deriving DecidableEq

/-- Sequencing that projects the payload a sub-call is known to produce
(a `value` call always yields `DOut.val`, and so on — the mismatch
branches are dead code, mapped to `malformedData` for totality). -/
def dbindVal (r : DRes DOut) (f : Value → DState → DRes DOut) : DRes DOut :=
  match r with
  | .ok (.val v) st => f v st
  | .ok _ _ => .err .malformedData
  | .err e => .err e
  | .fuelOut => .fuelOut

def dbindUnit (r : DRes DOut) (f : DState → DRes DOut) : DRes DOut :=
  match r with
  | .ok .unit st => f st
  | .ok _ _ => .err .malformedData
  | .err e => .err e
  | .fuelOut => .fuelOut

def dbindHdr (r : DRes DOut) (f : GoSlice → DState → DRes DOut) : DRes DOut :=
  match r with
  | .ok (.hdr h) st => f h st
  | .ok _ _ => .err .malformedData
  | .err e => .err e
  | .fuelOut => .fuelOut

def dbindEntries (r : DRes DOut) (f : List (Value × Value) → DState → DRes DOut) : DRes DOut :=
  match r with
  | .ok (.entries l) st => f l st
  | .ok _ _ => .err .malformedData
  | .err e => .err e
  | .fuelOut => .fuelOut

def dbindVals (r : DRes DOut) (f : List Value → DState → DRes DOut) : DRes DOut :=
  match r with
  | .ok (.vals l) st => f l st
  | .ok _ _ => .err .malformedData
  | .err e => .err e
  | .fuelOut => .fuelOut

def dbindErrf (r : DRes DOut) (f : ErrFields → DState → DRes DOut) : DRes DOut :=
  match r with
  | .ok (.errf l) st => f l st
  | .ok _ _ => .err .malformedData
  | .err e => .err e
  | .fuelOut => .fuelOut

/-- Lift a non-recursive handler result. -/
def rliftOut (r : RRes Value) : DRes DOut :=
  match r with
  | .ok (v, st) => .ok (.val v) st
  | .error e => .err e

/-- The tag switch of `readValue`. Unlisted tags (including the reserved
SharedArrayBuffer `u`, ArrayBufferTransfer `t`, ResizableArrayBuffer `~`)
fall to the default `ErrUnexpectedTag` branch. -/
def dispatchStep (recur : DCall → DRes DOut) (tag : Nat) (st : DState) : DRes DOut :=
  if tag = tagNull then .ok (.val .null) st
  else if tag = tagUndefined then .ok (.val .undefined) st
  else if tag = tagTrue then .ok (.val (.bool true)) st
  else if tag = tagFalse then .ok (.val (.bool false)) st
  else if tag = tagHole then .ok (.val .hole) st
  else if tag = tagInt32 then rliftOut (readInt32V st)
  else if tag = tagUint32 then rliftOut (readUint32V st)
  else if tag = tagDouble then rliftOut (readDoubleV st)
  else if tag = tagBigInt then rliftOut (readBigIntV st)
  else if tag = tagOneByteString then rliftOut (readOneByteStringV st)
  else if tag = tagTwoByteString then rliftOut (readTwoByteStringV st)
  else if tag = tagDate then rliftOut (readDateV st)
  else if tag = tagBeginJSObject then recur (.objBody st)
  else if tag = tagBeginDenseArray then recur (.denseBody st)
  else if tag = tagBeginSparseArray then recur (.sparseBody st)
  else if tag = tagObjectReference then rliftOut (readObjectReferenceV st)
  else if tag = tagBeginMap then recur (.mapBody st)
  else if tag = tagBeginSet then recur (.setBody st)
  else if tag = tagArrayBuffer then rliftOut (readArrayBufferV st)
  else if tag = tagTypedArray then rliftOut (readTypedArrayV st)
  else if tag = tagRegExp then recur (.regexpBody st)
  else if tag = tagNumberObject then rliftOut (readNumberObjectV st)
  else if tag = tagTrueObject then rliftOut (readTrueObjectV st)
  else if tag = tagFalseObject then rliftOut (readFalseObjectV st)
  else if tag = tagStringObject then recur (.stringObjBody st)
  else if tag = tagBigIntObject then recur (.bigintObjBody st)
  else if tag = tagError then recur (.errorBody st)
  else .err .unexpectedTag

/-- One step of the decoder: the bodies of the Go functions, with every
recursive call routed through `recur`. -/
def decodeStep (recur : DCall → DRes DOut) : DCall → DRes DOut := fun c =>
  match c with
  /- `Deserializer.readValue`: depth guard, padding skip, tag dispatch;
  the depth is restored on successful return (the Go `defer`). Peek and
  ReadByte failures are wrapped into `ErrMalformedData` as in the
  source. -/
  | .value st0 =>
    let st := { st0 with depth := st0.depth + 1 }
    if (st.depth : Int) > st.opts.maxDepth then .err .maxDepthExceeded
    else
      dbindVal
        (dbindUnit (recur (.skipPad st)) (fun st1 =>
          match readByte st1 with
          | .error _ => .err .malformedData
          | .ok (tag, st2) => recur (.dispatch tag st2)))
        (fun v stf => .ok (.val v) { stf with depth := st0.depth })
  /- padding-skip loop at the top of `readValue`. -/
  | .skipPad st =>
    match peek st with
    | .error _ => .err .malformedData
    | .ok tag =>
      if tag ≠ tagPadding then .ok .unit st
      else recur (.skipPad (consumeIgnore st))
  | .dispatch tag st => dispatchStep recur tag st
  /- `Deserializer.readObject`: allocate the (empty) Go map cell,
  register the object in the reference table before reading any
  contents, read key/value pairs, then re-store the object at its table
  slot. -/
  | .objBody st =>
    let (h, store1) := st.store.allocMap
    let v := Value.object h
    let objIndex := st.objects.length
    let st1 := { st with store := store1, objects := st.objects ++ [v] }
    dbindUnit (recur (.objPairs h st1)) (fun st2 =>
      .ok (.val v) { st2 with objects := st2.objects.set objIndex v })
  /- property loop of `readObject`: until the peeked tag is EndJSObject,
  read a key value, stringify it, read the value, store the pair in the
  shared map cell; on EndJSObject consume it and the (unvalidated)
  property count. No check against `maxObjectKeys` appears in the
  source. -/
  | .objPairs h st =>
    match peek st with
    | .error e => .err e
    | .ok tag =>
      if tag = tagEndJSObject then
        let st1 := consumeIgnore st
        match readVarint32 st1 with
        | .error e => .err e
        | .ok (_, st2) => .ok .unit st2
      else
        dbindVal (recur (.value st)) (fun key stk =>
          match objectKeyString key with
          | .error e => .err e
          | .ok keyStr =>
            dbindVal (recur (.value stk)) (fun val stv =>
              recur (.objPairs h { stv with store := stv.store.mapSet h keyStr val })))
  /- `Deserializer.readDenseArray`: varint length, `maxArrayLen` guard,
  allocate the backing (`make([]Value, 0, length)`) and register the
  zero-length slice header, read the elements (appending to the local
  header), skip extra properties, then store the final header at the
  table slot. The registered header keeps length 0 until that final
  store. -/
  | .denseBody st =>
    match readVarint32 st with
    | .error e => .err e
    | .ok (length, st1) =>
      if (length : Int) > st1.opts.maxArrayLen then .err .malformedData
      else
        let (b, store1) := st1.store.allocArray (List.replicate length Value.undefined)
        let hdr : GoSlice := ⟨b, 0, length⟩
        let v := Value.array hdr
        let arrIndex := st1.objects.length
        let st2 := { st1 with store := store1, objects := st1.objects ++ [v] }
        dbindHdr (recur (.denseElems length hdr st2)) (fun hdr2 st3 =>
          dbindUnit (recur (.denseExtra st3)) (fun st4 =>
            let v2 := Value.array hdr2
            .ok (.val v2) { st4 with objects := st4.objects.set arrIndex v2 }))
  /- element loop of `readDenseArray`: exactly `length` element reads,
  appended with Go `append` semantics. -/
  | .denseElems count hdr st =>
    match count with
    | 0 => .ok (.hdr hdr) st
    | count2 + 1 =>
      dbindVal (recur (.value st)) (fun elem st1 =>
        let (hdr2, store2) := sliceAppend st1.store hdr elem
        recur (.denseElems count2 hdr2 { st1 with store := store2 }))
  /- extra-property loop of `readDenseArray`: key/value pairs are read
  and discarded until EndDenseArray, then the property count and length
  varints are consumed. -/
  | .denseExtra st =>
    match peek st with
    | .error e => .err e
    | .ok tag =>
      if tag = tagEndDenseArray then
        let st1 := consumeIgnore st
        match readVarint32 st1 with
        | .error e => .err e
        | .ok (_, st2) =>
          match readVarint32 st2 with
          | .error e => .err e
          | .ok (_, st3) => .ok .unit st3
      else
        dbindVal (recur (.value st)) (fun _ st1 =>
          dbindVal (recur (.value st1)) (fun _ st2 => recur (.denseExtra st2)))
  /- `Deserializer.readSparseArray`: varint length, `maxArrayLen` guard,
  allocate a backing of `length` holes and register the full-length slice
  header (in-place writes are therefore visible through the table), read
  index/value pairs, then re-store the header. -/
  | .sparseBody st =>
    match readVarint32 st with
    | .error e => .err e
    | .ok (length, st1) =>
      if (length : Int) > st1.opts.maxArrayLen then .err .malformedData
      else
        let (b, store1) := st1.store.allocArray (List.replicate length Value.hole)
        let hdr : GoSlice := ⟨b, length, length⟩
        let v := Value.array hdr
        let arrIndex := st1.objects.length
        let st2 := { st1 with store := store1, objects := st1.objects ++ [v] }
        dbindUnit (recur (.sparsePairs hdr st2)) (fun st3 =>
          .ok (.val v) { st3 with objects := st3.objects.set arrIndex v })
  /- pair loop of `readSparseArray`: read a key and a value; the
  assignment-or-discard step is `sparseStorePair`; loop until
  EndSparseArray, then consume the property count and length varints. -/
  | .sparsePairs hdr st =>
    match peek st with
    | .error e => .err e
    | .ok tag =>
      if tag = tagEndSparseArray then
        let st1 := consumeIgnore st
        match readVarint32 st1 with
        | .error e => .err e
        | .ok (_, st2) =>
          match readVarint32 st2 with
          | .error e => .err e
          | .ok (_, st3) => .ok .unit st3
      else
        dbindVal (recur (.value st)) (fun key st1 =>
          dbindVal (recur (.value st1)) (fun val st2 =>
            recur (.sparsePairs hdr
              { st2 with store := sparseStorePair st2.store hdr key val })))
  /- `Deserializer.readMap`: allocate and register the shared `*JSMap`
  cell, read entries into a local list, then store it through the cell. -/
  | .mapBody st =>
    let (h, store1) := st.store.allocJsMap
    let v := Value.jsmap h
    let mapIndex := st.objects.length
    let st1 := { st with store := store1, objects := st.objects ++ [v] }
    dbindEntries (recur (.mapPairs [] st1)) (fun entries st2 =>
      .ok (.val v) { st2 with store := st2.store.setJsMap h entries,
                              objects := st2.objects.set mapIndex v })
  /- entry loop of `readMap` (keys stay full values); on EndMap the
  `2 * entries` varint is consumed. -/
  | .mapPairs entries st =>
    match peek st with
    | .error e => .err e
    | .ok tag =>
      if tag = tagEndMap then
        let st1 := consumeIgnore st
        match readVarint32 st1 with
        | .error e => .err e
        | .ok (_, st2) => .ok (.entries entries) st2
      else
        dbindVal (recur (.value st)) (fun key st1 =>
          dbindVal (recur (.value st1)) (fun val st2 =>
            recur (.mapPairs (entries ++ [(key, val)]) st2)))
  /- `Deserializer.readSet`. -/
  | .setBody st =>
    let (h, store1) := st.store.allocJsSet
    let v := Value.jsset h
    let setIndex := st.objects.length
    let st1 := { st with store := store1, objects := st.objects ++ [v] }
    dbindVals (recur (.setVals [] st1)) (fun vals st2 =>
      .ok (.val v) { st2 with store := st2.store.setJsSet h vals,
                              objects := st2.objects.set setIndex v })
  /- value loop of `readSet`; on EndSet the entry count varint is
  consumed. -/
  | .setVals vals st =>
    match peek st with
    | .error e => .err e
    | .ok tag =>
      if tag = tagEndSet then
        let st1 := consumeIgnore st
        match readVarint32 st1 with
        | .error e => .err e
        | .ok (_, st2) => .ok (.vals vals) st2
      else
        dbindVal (recur (.value st)) (fun val st1 =>
          recur (.setVals (vals ++ [val]) st1))
  /- `Deserializer.readRegExp`: pattern value (must be a String), varint
  flag bitfield; registers the RegExp. -/
  | .regexpBody st =>
    dbindVal (recur (.value st)) (fun pattern st1 =>
      if ¬ pattern.isString then .err .malformedData
      else
        match readVarint32 st1 with
        | .error e => .err e
        | .ok (flagBits, st2) =>
          let v := Value.regexp pattern.asString (regexpFlagsOf flagBits)
          .ok (.val v) { st2 with objects := st2.objects ++ [v] })
  /- `Deserializer.readStringObject`: boxed String; inner value must be a
  String. -/
  | .stringObjBody st =>
    dbindVal (recur (.value st)) (fun inner st1 =>
      if inner.typ ≠ .vstring then .err .malformedData
      else
        let v := Value.boxed .vstring inner
        .ok (.val v) { st1 with objects := st1.objects ++ [v] })
  /- `Deserializer.readBigIntObject`: boxed BigInt; inner value must be a
  BigInt. -/
  | .bigintObjBody st =>
    dbindVal (recur (.value st)) (fun inner st1 =>
      if inner.typ ≠ .bigint then .err .malformedData
      else
        let v := Value.boxed .bigint inner
        .ok (.val v) { st1 with objects := st1.objects ++ [v] })
  /- `Deserializer.readError`: type byte (`m` doubles as generic Error
  with the message value following directly), then sub-tag loop;
  registers the Error. -/
  | .errorBody st =>
    match readByte st with
    | .error e => .err e
    | .ok (errType, st1) =>
      if errType = 109 then
        dbindVal (recur (.value st1)) (fun val st2 =>
          let f0 : ErrFields :=
            ⟨ascii ['E','r','r','o','r'],
             if val.isString then val.asString else [], [], false, .undefined⟩
          dbindErrf (recur (.errorProps f0 st2)) (fun f st3 =>
            let v := Value.jserror f.name f.message f.stack f.causePresent f.cause
            .ok (.val v) { st3 with objects := st3.objects ++ [v] }))
      else
        let f0 : ErrFields := ⟨errorTypeName errType, [], [], false, .undefined⟩
        dbindErrf (recur (.errorProps f0 st1)) (fun f st3 =>
          let v := Value.jserror f.name f.message f.stack f.causePresent f.cause
          .ok (.val v) { st3 with objects := st3.objects ++ [v] })
  /- sub-tag loop of `readError`: `m`/`s` set message/stack when the
  value is a String, `c` sets the cause; unknown sub-tags read and drop a
  value; `.` ends the loop. -/
  | .errorProps f st =>
    match readByte st with
    | .error e => .err e
    | .ok (subTag, st1) =>
      if subTag = 46 then .ok (.errf f) st1
      else
        dbindVal (recur (.value st1)) (fun val st2 =>
          let f2 :=
            if subTag = 109 then (if val.isString then { f with message := val.asString } else f)
            else if subTag = 115 then (if val.isString then { f with stack := val.asString } else f)
            else if subTag = 99 then { f with causePresent := true, cause := val }
            else f
          recur (.errorProps f2 st2))

/-- The fueled decoder: `Nat.rec` iteration of `decodeStep` (so the
kernel unfolds it one step at a time). -/
def decodeRun (fuel : Nat) : DCall → DRes DOut :=
  Nat.rec (motive := fun _ => DCall → DRes DOut)
    (fun _ => .fuelOut) (fun _ ih => decodeStep ih) fuel

theorem decodeRun_zero : decodeRun 0 = fun _ => DRes.fuelOut := rfl

theorem decodeRun_succ (n : Nat) : decodeRun (n + 1) = decodeStep (decodeRun n) := rfl

/-- `Deserializer.readValue` with fuel (a `value` call always returns a
`DOut.val` payload; the other arms are dead code kept for totality). -/
def readValueF (fuel : Nat) (st : DState) : DRes Value :=
  match decodeRun fuel (.value st) with
  | .ok (.val v) st1 => .ok v st1
  | .ok _ _ => .err .malformedData
  | .err e => .err e
  | .fuelOut => .fuelOut


/-- `Deserializer.readHeader`: version tag byte then varint version in
[13, 15]; read failures are wrapped into `ErrInvalidHeader`. -/
def readHeader (st : DState) : RRes Unit :=
  match readByte st with
  | .error _ => .error .invalidHeader
  | .ok (tag, st1) =>
    if tag ≠ tagVersion then .error .invalidHeader
    else
      match readVarint32 st1 with
      | .error _ => .error .invalidHeader
      | .ok (version, st2) =>
        if version < minVersion ∨ version > maxVersion then .error .unsupportedVersion
        else .ok ((), { st2 with version := version })

/-- Fresh state of `NewDeserializer(data, opts...)`. -/
def initState (data : List Nat) (opts : DOpts) : DState :=
  ⟨data, 0, 0, opts, 0, [], Store.empty⟩

/-- `Deserializer.Deserialize` with explicit fuel: max-size check, header,
root value. -/
def deserializeF (fuel : Nat) (data : List Nat) (opts : DOpts) : DRes Value :=
  let st := initState data opts
  if 0 < opts.maxSize ∧ opts.maxSize < (data.length : Int) then .err .maxSizeExceeded
  else rbind (readHeader st) (fun _ st1 => readValueF fuel st1)

/-- The package-level `Deserialize(data, opts...)`: the fuel
`4 * |data| + 8` is proved sufficient (never `fuelOut`) by
`deserialize_terminates`. -/
def deserialize (data : List Nat) (opts : DOpts) : DRes Value :=
  deserializeF (4 * data.length + 8) data opts

/-- Observable result of a decode: the root value and the final heap
(handles in the value are resolved through the store). -/
def decodeVS (data : List Nat) (opts : DOpts) : Option (Value × Store) :=
  match deserialize data opts with
  | .ok v st => some (v, st.store)
  | _ => none

/-! ## Wire writer (internal/wire/writer.go) and the serializer -/

/-- `Writer.WriteVarint` byte production: 7 bits per byte, high bit on all
but the last. The fuel (10 calls) covers every `uint64`. -/
def varintBytesAux : Nat → Nat → List Nat
  | 0, n => [n % 128]
  | fuel + 1, n => if n < 128 then [n] else (n % 128 + 128) :: varintBytesAux fuel (n / 128)

def varintBytes (n : Nat) : List Nat := varintBytesAux 10 n

/-- `wire.ZigZagEncode32`: `uint32((n << 1) ^ (n >> 31))` over int32
two's-complement, i.e. `2n` for `n ≥ 0` and `2|n| - 1` for `n < 0`
(e.g. `-2^31 ↦ 2^32 - 1`). Total over `Int`; callers pass int32 values. -/
def zigZagEncode32 (n : Int) : Nat :=
  (if 0 ≤ n then 2 * n else -2 * n - 1).toNat % 2 ^ 32

/-- Little-endian bytes of a value, fixed width. -/
def leBytes : Nat → Nat → List Nat
  | 0, _ => []
  | k + 1, n => n % 256 :: leBytes k (n / 256)

/-- Minimal little-endian byte representation of a positive natural (the
reverse of `big.Int.Bytes()`; fueled, 80 bytes cover every value the
claims touch and the fallback only pads with the residue). -/
def natBytesLEAux : Nat → Nat → List Nat
  | 0, n => [n % 256]
  | fuel + 1, n => if n = 0 then [] else n % 256 :: natBytesLEAux fuel (n / 256)

def natBytesLE (n : Nat) : List Nat := natBytesLEAux 80 n

/-- `wire.NeedsUTF16`: false for invalid UTF-8 (raw Latin-1 bytes), else
true iff some rune is above U+00FF. -/
def needsUTF16 (s : List Nat) : Bool :=
  match utf8Decode s with
  | none => false
  | some rs => rs.any (fun r => 255 < r)

/-- `wire.UTF16Length`: code-unit count over the runes of `s` (only
reached for valid UTF-8 strings, since `NeedsUTF16` is false otherwise). -/
def utf16LengthGo (s : List Nat) : Nat :=
  ((utf8Decode s).getD []).foldl (fun acc r => acc + if r ≤ 0xFFFF then 1 else 2) 0

/-- `Writer.WriteOneByteString`: raw bytes for invalid UTF-8, else one
byte per rune (`byte(r)` truncates mod 256; all call sites have runes
≤ 255). -/
def writeOneByteStringW (buf s : List Nat) : List Nat :=
  match utf8Decode s with
  | none => buf ++ s
  | some rs => buf ++ rs.map (fun r => r % 256)

/-- UTF-16 code units of a rune list (`Writer.WriteTwoByteString` loop):
BMP runes are one unit, others a surrogate pair. -/
def utf16UnitsOfRunes (rs : List Nat) : List Nat :=
  (rs.map (fun r =>
    if r ≤ 0xFFFF then [r]
    else [0xD800 + (r - 0x10000) / 1024, 0xDC00 + (r - 0x10000) % 1024])).flatten

/-- `Writer.WriteTwoByteString`: pad one zero byte if the buffer length is
odd, then the UTF-16LE units (only reached for valid UTF-8 strings). -/
def writeTwoByteStringW (buf s : List Nat) : List Nat :=
  let buf1 := if buf.length % 2 ≠ 0 then buf ++ [0] else buf
  buf1 ++ ((utf16UnitsOfRunes ((utf8Decode s).getD [])).map (fun u => [u % 256, u / 256 % 256])).flatten

/-- `Serializer.writeString`: two-byte form (tag, varint byte length,
aligned payload) iff `NeedsUTF16`; else one-byte form with the varint
length `uint32(len(str))` — the Go byte length of the string. -/
def writeStringS (buf s : List Nat) : List Nat :=
  if needsUTF16 s then
    writeTwoByteStringW (buf ++ [tagTwoByteString] ++ varintBytes (utf16LengthGo s * 2 % 2 ^ 32)) s
  else
    writeOneByteStringW (buf ++ [tagOneByteString] ++ varintBytes (s.length % 2 ^ 32)) s

/-- `Serializer.writeBigInt`: tag, bitfield varint `(len << 1) | sign`,
little-endian magnitude. -/
def writeBigIntS (buf : List Nat) (n : Int) : List Nat :=
  if n = 0 then buf ++ [tagBigInt] ++ varintBytes 0
  else
    let absBytes := natBytesLE n.natAbs
    let bitfield := absBytes.length * 2 + (if n < 0 then 1 else 0)
    buf ++ [tagBigInt] ++ varintBytes bitfield ++ absBytes

/-- `time.Time.UnixMilli()` on the normalised (sec, nsec) pair. -/
def goUnixMilli (sec nsec : Int) : Int := sec * 1000 + Int.tdiv nsec 1000000

/-- RegExp flag string to wire bitfield (`Serializer.writeRegExp`). -/
def regexpFlagBits (flags : List Nat) : Nat :=
  flags.foldl (fun acc c =>
    if c = 103 then acc ||| 1
    else if c = 105 then acc ||| 2
    else if c = 109 then acc ||| 4
    else if c = 115 then acc ||| 8
    else if c = 117 then acc ||| 16
    else if c = 121 then acc ||| 32
    else acc) 0

/-- TypedArray name to type id (`Serializer.writeTypedArray`); `none` for
unknown names (a serializer error). -/
def typedArrayIdOfName (name : List Nat) : Option Nat :=
  if name = typedArrayName 0 then some 0
  else if name = typedArrayName 1 then some 1
  else if name = typedArrayName 2 then some 2
  else if name = typedArrayName 3 then some 3
  else if name = typedArrayName 4 then some 4
  else if name = typedArrayName 5 then some 5
  else if name = typedArrayName 6 then some 6
  else if name = typedArrayName 7 then some 7
  else if name = typedArrayName 8 then some 8
  else if name = typedArrayName 9 then some 9
  else if name = typedArrayName 10 then some 10
  else if name = typedArrayName 11 then some 11
  else if name = typedArrayName 12 then some 12
  else none

/-- Serializer error kinds (`fmt.Errorf` of unsupported type / unknown
TypedArray name). -/
inductive SErr where
  | unsupportedType
  | unknownTypedArray
deriving DecidableEq

/-- Result of a fueled serializer step: the buffer so far, an error, or
fuel exhaustion (the serializer has no cycle guard, so on cyclic heaps
every fuel runs out — claim C7). -/
inductive SRes where
  | ok (buf : List Nat)
  | err (e : SErr)
  | fuelOut
deriving DecidableEq

def sbind (r : SRes) (f : List Nat → SRes) : SRes :=
  match r with
  | .ok b => f b
  | .err e => .err e
  | .fuelOut => .fuelOut

/-- `Value.AsDouble` / `AsBool` / `AsBigInt` payload projections (the Go
panic branches are unreachable at the call sites, which are type-guarded;
the defaults stand in for them). -/
def Value.asDoubleBits : Value → Nat
  | .double b => b
  | _ => 0

def Value.asBoolD : Value → Bool
  | .bool b => b
  | _ => false

def Value.asBigIntD : Value → Int
  | .bigint n => n
  | _ => 0

/-- The elements of a Go slice: the first `len` cells of its backing. -/
def sliceElems (store : Store) (hdr : GoSlice) : List Value :=
  (store.arrays.getD hdr.backing []).take hdr.len

/-- Key/value loop of `Serializer.writeObject`, parametrized by the
recursive write (`recur` is `writeValue` at the current fuel). -/
def writeObjEntriesGo (recur : Store → Value → List Nat → SRes) (store : Store) :
    List (List Nat × Value) → List Nat → SRes
  | [], buf => .ok buf
  | (k, v) :: rest, buf =>
    sbind (recur store v (writeStringS buf k)) (fun buf2 =>
      writeObjEntriesGo recur store rest buf2)

/-- Element loop of `Serializer.writeArray`. -/
def writeElemsGo (recur : Store → Value → List Nat → SRes) (store : Store) :
    List Value → List Nat → SRes
  | [], buf => .ok buf
  | v :: rest, buf =>
    sbind (recur store v buf) (fun buf2 => writeElemsGo recur store rest buf2)

/-- Entry loop of `Serializer.writeMap`. -/
def writeMapEntriesGo (recur : Store → Value → List Nat → SRes) (store : Store) :
    List (Value × Value) → List Nat → SRes
  | [], buf => .ok buf
  | (k, v) :: rest, buf =>
    sbind (recur store k buf) (fun buf2 =>
      sbind (recur store v buf2) (fun buf3 =>
        writeMapEntriesGo recur store rest buf3))

/-- Value loop of `Serializer.writeSet`. -/
def writeSetValsGo (recur : Store → Value → List Nat → SRes) (store : Store) :
    List Value → List Nat → SRes
  | [], buf => .ok buf
  | v :: rest, buf =>
    sbind (recur store v buf) (fun buf2 => writeSetValsGo recur store rest buf2)

/-- One step of `Serializer.writeValue`: tag plus payload per variant,
recursive writes routed through `recur`. Map cells are iterated in the
canonical (sorted) order — Go map iteration order is unspecified; the
claims evaluate this only on maps of at most one entry, where every order
coincides. -/
def writeValueStep (recur : Store → Value → List Nat → SRes)
    (store : Store) (v : Value) (buf : List Nat) : SRes :=
  match v with
  | .null => .ok (buf ++ [tagNull])
  | .undefined => .ok (buf ++ [tagUndefined])
  | .hole => .ok (buf ++ [tagHole])
  | .bool b => .ok (buf ++ [if b then tagTrue else tagFalse])
  | .int32 m => .ok (buf ++ [tagInt32] ++ varintBytes (zigZagEncode32 m))
  | .uint32 m => .ok (buf ++ [tagUint32] ++ varintBytes (m % 2 ^ 32))
  | .double bits => .ok (buf ++ [tagDouble] ++ leBytes 8 bits)
  | .bigint m => .ok (writeBigIntS buf m)
  | .str s => .ok (writeStringS buf s)
  | .date sec nsec =>
    .ok (buf ++ [tagDate] ++ leBytes 8 (floatFromInt (goUnixMilli sec nsec)))
  | .object h =>
    let entries := store.maps.getD h []
    sbind (writeObjEntriesGo recur store entries (buf ++ [tagBeginJSObject])) (fun buf2 =>
      .ok (buf2 ++ [tagEndJSObject] ++ varintBytes (entries.length % 2 ^ 32)))
  | .array hdr =>
    let elems := sliceElems store hdr
    sbind (writeElemsGo recur store elems
             (buf ++ [tagBeginDenseArray] ++ varintBytes (elems.length % 2 ^ 32)))
      (fun buf2 =>
        .ok (buf2 ++ [tagEndDenseArray] ++ varintBytes 0 ++ varintBytes (elems.length % 2 ^ 32)))
  | .jsmap h =>
    let entries := store.jsmaps.getD h []
    sbind (writeMapEntriesGo recur store entries (buf ++ [tagBeginMap])) (fun buf2 =>
      .ok (buf2 ++ [tagEndMap] ++ varintBytes (entries.length * 2 % 2 ^ 32)))
  | .jsset h =>
    let vals := store.jssets.getD h []
    sbind (writeSetValsGo recur store vals (buf ++ [tagBeginSet])) (fun buf2 =>
      .ok (buf2 ++ [tagEndSet] ++ varintBytes (vals.length % 2 ^ 32)))
  | .arrayBuffer bytes =>
    .ok (buf ++ [tagArrayBuffer] ++ varintBytes (bytes.length % 2 ^ 32) ++ bytes)
  | .regexp pat flags =>
    .ok (writeStringS (buf ++ [tagRegExp]) pat ++ varintBytes (regexpFlagBits flags))
  | .jserror name message stack causePresent cause =>
    let typeByte : Nat :=
      if name = errorTypeName 69 then 69
      else if name = errorTypeName 82 then 82
      else if name = errorTypeName 70 then 70
      else if name = errorTypeName 83 then 83
      else if name = errorTypeName 84 then 84
      else if name = errorTypeName 85 then 85
      else 109
    let buf1 :=
      if typeByte = 109 then writeStringS (buf ++ [tagError, 109]) message
      else writeStringS (buf ++ [tagError, typeByte, 109]) message
    let buf2 := if stack ≠ [] then writeStringS (buf1 ++ [115]) stack else buf1
    if causePresent then
      sbind (recur store cause (buf2 ++ [99])) (fun buf3 => .ok (buf3 ++ [46]))
    else .ok (buf2 ++ [46])
  | .typedArray buffer _ _ tyName =>
    match typedArrayIdOfName tyName with
    | none => .err .unknownTypedArray
    | some typeID =>
      .ok (buf ++ [tagTypedArray, typeID] ++ varintBytes (buffer.length % 2 ^ 32) ++ buffer)
  | .boxed primTy inner =>
    match primTy with
    | .double => .ok (buf ++ [tagNumberObject] ++ leBytes 8 inner.asDoubleBits)
    | .bool => .ok (buf ++ [if inner.asBoolD then tagTrueObject else tagFalseObject])
    | .vstring => .ok (writeStringS (buf ++ [tagStringObject]) inner.asString)
    | .bigint => .ok (writeBigIntS (buf ++ [tagBigIntObject]) inner.asBigIntD)
    | _ => .err .unsupportedType

/-- The fueled `Serializer.writeValue`: `Nat.rec` iteration of
`writeValueStep` (no cycle guard exists in the source, so on a cyclic
heap every fuel is exhausted — claim C7). -/
def writeValueF (fuel : Nat) : Store → Value → List Nat → SRes :=
  Nat.rec (motive := fun _ => Store → Value → List Nat → SRes)
    (fun _ _ _ => .fuelOut) (fun _ ih => writeValueStep ih) fuel

theorem writeValueF_zero : writeValueF 0 = fun _ _ _ => SRes.fuelOut := rfl

theorem writeValueF_succ (n : Nat) :
    writeValueF (n + 1) = writeValueStep (writeValueF n) := rfl

/-- `SerializeVersion` and the header bytes (`writeHeader`). -/
def serializeVersion : Nat := 15

def headerBytes : List Nat := [tagVersion] ++ varintBytes serializeVersion

/-- `Serializer.Serialize(v)` over a heap, with explicit fuel: header then
root value. -/
def serializeF (fuel : Nat) (store : Store) (v : Value) : SRes :=
  writeValueF fuel store v headerBytes

/-! ## Concrete payloads used by the claim theorems -/

/-- `ff 0f 41 01 5e 00 24 00 01`: dense array of length 1 whose single
element is `ObjectReference(0)` — a self-reference to the array. -/
def denseSelfRefBytes : List Nat := [255, 15, 65, 1, 94, 0, 36, 0, 1]

/-- Spec scenario 2: `{"a": Int32(1), "b": Int32(2)}` with the pairs in
the order a, b. -/
def objABBytes : List Nat := [255, 15, 111, 34, 1, 97, 73, 2, 34, 1, 98, 73, 4, 123, 2]

/-- The same object with the pairs in the order b, a. -/
def objBABytes : List Nat := [255, 15, 111, 34, 1, 98, 73, 4, 34, 1, 97, 73, 2, 123, 2]

/-- The final heap of decoding either object payload: one map cell with
keys a and b. -/
def objABStore : Store :=
  ⟨[[([97], Value.int32 1), ([98], Value.int32 2)]], [], [], []⟩

/-- TwoByteString with varint byte length 3 (odd) and payload
`61 00 62`. -/
def twoByteOddBytes : List Nat := [255, 15, 99, 3, 97, 0, 98]

/-- TwoByteString with even byte length 2, payload `61 00` = "a". -/
def twoByteEvenBytes : List Nat := [255, 15, 99, 2, 97, 0]

/-- TwoByteString at an odd cursor: padding byte, tag, byte length 2, one
alignment byte skipped, then `61 00` = "a". -/
def twoByteAlignBytes : List Nat := [255, 15, 0, 99, 2, 0, 97, 0]

/-- Object whose single key is the double 1.5 (bits 3FF8000000000000 LE)
with value Int32(1). -/
def objDoubleKeyBytes : List Nat :=
  [255, 15, 111, 78, 0, 0, 0, 0, 0, 0, 248, 63, 73, 2, 123, 1]

/-- Object whose single key is the double 1e21 with value Int32(1). -/
def objBigDoubleKeyBytes : List Nat :=
  [255, 15, 111, 78, 80, 239, 226, 214, 228, 26, 75, 68, 73, 2, 123, 1]

/-- Object whose single key is the boolean true. -/
def objBoolKeyBytes : List Nat := [255, 15, 111, 84, 73, 2, 123, 1]

/-- Sparse array of length 1 with one pair: key Double(-0.5)
(bits BFE0000000000000 LE), value Int32(7). -/
def sparseNegHalfBytes : List Nat :=
  [255, 15, 97, 1, 78, 0, 0, 0, 0, 0, 0, 224, 191, 73, 14, 64, 0, 1]

/-- Sparse array of length 1 with a string-key pair ("x": Int32(5)) and an
out-of-range numeric pair (3: Int32(9)); both are dropped. -/
def sparseDiscardBytes : List Nat :=
  [255, 15, 97, 1, 34, 1, 120, 73, 10, 73, 6, 73, 18, 64, 0, 1]

/-- The Go string "é": UTF-8 bytes C3 A9, a single rune U+00E9. -/
def eAcuteBytes : List Nat := [195, 169]

/-- A heap with a single self-referential object: `maps[0]` maps "self" to
`Value.object 0` (what `Deserialize` builds from spec scenario 5, and what
`obj["self"] = obj` builds in Go). -/
def cyclicSelfStore : Store := ⟨[[(ascii ['s','e','l','f'], Value.object 0)]], [], [], []⟩

/-- The encoder applied to the self-referential object never returns, for
any fuel and output buffer: `writeObject` iterates into `writeValue` on
the same object with no cycle detection and no depth guard. -/
def serializeSelfDiverges : Prop :=
  ∀ (fuel : Nat) (buf : List Nat),
    writeValueF fuel cyclicSelfStore (Value.object 0) buf = SRes.fuelOut

theorem serialize_cyclic_aux :
    ∀ (fuel : Nat) (buf : List Nat),
      writeValueF fuel ⟨[[(ascii ['s','e','l','f'], Value.object 0)]], [], [], []⟩
        (Value.object 0) buf = SRes.fuelOut := by
  intro fuel
  induction fuel with
  | zero => intro buf; rfl
  | succ n ih =>
    intro buf
    rw [writeValueF_succ]
    simp [writeValueStep, writeObjEntriesGo, sbind, ih]

/-! ## Claim theorems -/

/-- C1: evaluation of the decoder at the failing input. The payload is a
dense array of length 1 whose element is an ObjectReference to the array
itself. The table entry registered before the elements are read is the
zero-length slice header `⟨0, 0, 1⟩` (Go `make([]Value, 0, length)`), and
`arr = append(arr, elem)` only grows the local header, so the
back-reference resolves to a snapshot whose element list is empty: the
decoded container's element is `array ⟨0, 0, 1⟩` (no elements), not the
container with the contents it holds after decode (`array ⟨0, 1, 1⟩`,
one element). The cycle the claim requires is absent. (For Object, sparse
array, Map and Set the shared cell makes the cycle work, as in spec
scenario 5.) -/
theorem c1_dense_cycle_snapshot :
    decodeVS denseSelfRefBytes defaultOpts =
      some (Value.array ⟨0, 1, 1⟩, ⟨[], [[Value.array ⟨0, 0, 1⟩]], [], []⟩) ∧
    sliceElems ⟨[], [[Value.array ⟨0, 0, 1⟩]], [], []⟩ ⟨0, 1, 1⟩ =
      [Value.array ⟨0, 0, 1⟩] ∧
    sliceElems ⟨[], [[Value.array ⟨0, 0, 1⟩]], [], []⟩ ⟨0, 0, 1⟩ = [] := by
  decide

/-- C2: evaluation at the failing input `String("é")`. `writeString` emits
the varint `uint32(len(str))` — the UTF-8 byte length 2 — but
`WriteOneByteString` writes one byte per rune (a single byte 0xE9), so the
payload is one byte short of its declared length and decoding fails with
`ErrUnexpectedEOF` instead of returning the string. -/
theorem c2_string_roundtrip_broken :
    serializeF 2 Store.empty (Value.str eAcuteBytes) = SRes.ok [255, 15, 34, 2, 233] ∧
    deserialize [255, 15, 34, 2, 233] defaultOpts = DRes.err DErr.unexpectedEOF := by
  decide

/-- C4: evaluation at the failing input. The two-key object payload
decodes successfully under `WithMaxObjectKeys(1)`: no code in `readObject`
(or anywhere else) consults `maxObjectKeys`, so the bound is never
enforced. -/
theorem c4_maxObjectKeys_not_enforced :
    decodeVS objABBytes { defaultOpts with maxObjectKeys := 1 } =
      some (Value.object 0, objABStore) := by
  decide

/-- C5 counterexample: the reserved SharedArrayBuffer tag `u` (0x75) in
value position is not recognized: it falls through the tag switch to the
default branch and decode fails with `ErrUnexpectedTag` — there is no
UnsupportedFeature error kind in the code. -/
theorem c5_counterexample :
    deserialize [255, 15, 117] defaultOpts = DRes.err DErr.unexpectedTag := by
  decide

/-- C5 amended: all three reserved tags — SharedArrayBuffer `u`,
ArrayBufferTransfer `t`, ResizableArrayBuffer `~` — hit the default
branch of the tag switch and fail with `ErrUnexpectedTag` (reported as an
unknown tag, not specially recognized). -/
theorem c5_reserved_tags_unexpected :
    deserialize [255, 15, tagSharedArrayBuffer] defaultOpts = DRes.err DErr.unexpectedTag ∧
    deserialize [255, 15, tagArrayBufferTransfer] defaultOpts = DRes.err DErr.unexpectedTag ∧
    deserialize [255, 15, tagResizableArrayBuffer] defaultOpts = DRes.err DErr.unexpectedTag := by
  decide

/-- C6 counterexample: two payloads whose key/value pairs appear on the
wire in opposite orders (a,b vs b,a) decode to identical results — the
same root value and the same heap, because a decoded Object is an
unordered Go map. No traversal of the decoded value can recover the wire
appearance order for both payloads, so iteration cannot "yield the keys in
the order their pairs appeared in the byte stream". -/
theorem c6_counterexample :
    objABBytes ≠ objBABytes ∧
    decodeVS objABBytes defaultOpts = decodeVS objBABytes defaultOpts ∧
    (decodeVS objABBytes defaultOpts).isSome = true := by
  decide

/-- C6 amended: a decoded Object maps exactly the wire keys to their
values (later pairs overwrite earlier ones with the same key), but as an
unordered Go `map[string]Value`: the wire order of the pairs is not
preserved — both orders of the same pairs produce the same object. -/
theorem c6_object_unordered :
    decodeVS objABBytes defaultOpts = some (Value.object 0, objABStore) ∧
    goMapLookup [97] (objABStore.maps.getD 0 []) = some (Value.int32 1) ∧
    goMapLookup [98] (objABStore.maps.getD 0 []) = some (Value.int32 2) ∧
    decodeVS objBABytes defaultOpts = some (Value.object 0, objABStore) := by
  decide

/-- C7 counterexample: serializing a value whose object graph contains a
cycle (an object whose "self" property is the object itself — exactly what
decoding spec scenario 5 produces) never returns, whatever the fuel: the
encoder recurses through `writeObject → writeValue → writeObject` without
bound. In particular it never fails with a `CyclicNotSupported` error — no
such error kind exists in the code (`SErr` has only the two `fmt.Errorf`
kinds the serializer can produce). -/
theorem c7_counterexample : serializeSelfDiverges := by
  intro fuel buf
  exact serialize_cyclic_aux fuel buf

/-- C7 amended: `Serialize` has no depth guard and no cycle detection: on
the self-referential object it recurses without bound (modelled as fuel
exhaustion at every fuel), matching the documented limitation in the
`Serializer` comment ("will cause a stack overflow"). -/
theorem c7_no_cycle_guard :
    ∀ fuel : Nat, serializeF fuel cyclicSelfStore (Value.object 0) = SRes.fuelOut := by
  intro fuel
  exact serialize_cyclic_aux fuel headerBytes

/-- C8 counterexample: a TwoByteString tag followed by the odd varint
byte-length 3 does not fail with `MalformedData`: the length is divided by
two (dropping the odd byte), a single UTF-16 code unit is read, and decode
succeeds with the string "a". -/
theorem c8_counterexample :
    decodeVS twoByteOddBytes defaultOpts = some (Value.str [97], Store.empty) := by
  decide

/-- C8 amended: the decoder never checks the parity of a TwoByteString
byte length — odd lengths are truncated to `byteLength / 2` code units
with no error; even byte lengths read exactly that many bytes as UTF-16LE
code units, with the cursor aligned to 2 first (the alignment skip is
visible when the varint ends at an odd offset). -/
theorem c8_twobyte_truncates :
    decodeVS twoByteOddBytes defaultOpts = some (Value.str [97], Store.empty) ∧
    decodeVS twoByteEvenBytes defaultOpts = some (Value.str [97], Store.empty) ∧
    decodeVS twoByteAlignBytes defaultOpts = some (Value.str [97], Store.empty) := by
  decide

/-- C9 counterexample: an object key that is the non-integral double 1.5
does not make decode fail with `MalformedData` — the object decodes
successfully (the key is stringified with `%g`). -/
theorem c9_counterexample :
    (decodeVS objDoubleKeyBytes defaultOpts).isSome = true := by
  decide

/-- C9 amended: a Double key — integral or not — is stringified with Go
`%g` formatting rather than rejected: 1.5 becomes the key "1.5", and the
integral double 1e21 becomes "1e+21" (not its decimal digit string);
only keys that are neither String nor Int32/Uint32/Double fail with
`MalformedData` (shown for a boolean key). -/
theorem c9_double_keys_g_formatted :
    decodeVS objDoubleKeyBytes defaultOpts =
      some (Value.object 0, ⟨[[([49, 46, 53], Value.int32 1)]], [], [], []⟩) ∧
    decodeVS objBigDoubleKeyBytes defaultOpts =
      some (Value.object 0,
        ⟨[[([49, 101, 43, 50, 49], Value.int32 1)]], [], [], []⟩) ∧
    deserialize objBoolKeyBytes defaultOpts = DRes.err DErr.malformedData := by
  decide

/-- C10 counterexample: in a sparse array of length 1, the pair with key
Double(-0.5) — a numeric value outside [0, 1) — is not discarded:
`int(key.AsNumber())` truncates -0.5 to index 0, which passes the range
check, so the value is assigned at index 0 (`Int32 7` instead of the
claimed untouched `Hole`). -/
theorem c10_counterexample :
    decodeVS sparseNegHalfBytes defaultOpts =
      some (Value.array ⟨0, 1, 1⟩, ⟨[], [[Value.int32 7]], [], []⟩) := by
  decide

/-- C10 amended: a sparse-array pair is silently dropped — the heap is
left untouched and no error is raised — exactly when the key is not a
number, or when the key's numeric value truncated toward zero falls
outside `[0, length)`; pairs whose truncated index is in range assign at
that index (so -0.5 assigns at 0). The concrete conjunct shows decoding
continuing past a string-key pair and an out-of-range pair, leaving the
hole intact. -/
theorem c10_sparse_discard (store : Store) (hdr : GoSlice) (key val : Value)
    (h : key.isNumber = false ∨ goNumberTruncInt key < 0 ∨
         (hdr.len : Int) ≤ goNumberTruncInt key) :
    sparseStorePair store hdr key val = store ∧
    decodeVS sparseDiscardBytes defaultOpts =
      some (Value.array ⟨0, 1, 1⟩, ⟨[], [[Value.hole]], [], []⟩) := by
  constructor
  · unfold sparseStorePair
    rcases h with h | h | h
    · simp [h]
    · simp only []
      split
      · split
        · omega
        · rfl
      · rfl
    · simp only []
      split
      · split
        · omega
        · rfl
      · rfl
  · decide

/-- C10 witness: the discard theorem applied to the concrete string key
"x" in a length-1 sparse array. -/
theorem c10_witness :
    sparseStorePair Store.empty ⟨0, 1, 1⟩ (Value.str [120]) (Value.int32 5) = Store.empty ∧
    decodeVS sparseDiscardBytes defaultOpts =
      some (Value.array ⟨0, 1, 1⟩, ⟨[], [[Value.hole]], [], []⟩) :=
  c10_sparse_discard Store.empty ⟨0, 1, 1⟩ (Value.str [120]) (Value.int32 5) (Or.inl rfl)

/-! ## Progress infrastructure for the no-panic / termination claim (C3)

`StepsTo st st1` says a reader operation moved the cursor forward over the
same input, staying in bounds; the lemmas below establish it for every
primitive, and `decoder_progress` lifts it through the recursive decoder
together with the fact that fuel `4 * remaining + c` never runs out. -/
def StepsTo (st st1 : DState) : Prop :=
  st1.data = st.data ∧ st.pos ≤ st1.pos ∧ st1.pos ≤ st.data.length

def StrictStepsTo (st st1 : DState) : Prop :=
  st1.data = st.data ∧ st.pos < st1.pos ∧ st1.pos ≤ st.data.length

theorem StepsTo.trans {a b c : DState} (h1 : StepsTo a b) (h2 : StepsTo b c) :
    StepsTo a c := by
  obtain ⟨d1, p1, l1⟩ := h1
  obtain ⟨d2, p2, l2⟩ := h2
  exact ⟨d2.trans d1, p1.trans p2, by rw [d1] at l2; exact l2⟩

theorem StrictStepsTo.steps {a b : DState} (h : StrictStepsTo a b) : StepsTo a b :=
  ⟨h.1, Nat.le_of_lt h.2.1, h.2.2⟩

theorem peek_ok_lt {st : DState} {b : Nat} (h : peek st = .ok b) :
    st.pos < st.data.length := by
  unfold peek at h
  rcases hd : st.data.drop st.pos with _ | ⟨x, xs⟩
  · rw [hd] at h; exact absurd h (by simp)
  · by_contra hle
    push_neg at hle
    rw [List.drop_eq_nil_of_le hle] at hd
    exact absurd hd (by simp)

theorem readByte_ok {st : DState} {b : Nat} {st1 : DState}
    (h : readByte st = .ok (b, st1)) :
    st1 = { st with pos := st.pos + 1 } ∧ st.pos < st.data.length := by
  unfold readByte at h
  rcases hd : st.data.drop st.pos with _ | ⟨x, xs⟩
  · rw [hd] at h; exact absurd h (by simp)
  · rw [hd] at h
    refine ⟨by cases h; rfl, ?_⟩
    by_contra hle
    push_neg at hle
    rw [List.drop_eq_nil_of_le hle] at hd
    exact absurd hd (by simp)

theorem consumeIgnore_of_peek {st : DState} {b : Nat} (h : peek st = .ok b) :
    consumeIgnore st = { st with pos := st.pos + 1 } := by
  have hlt := peek_ok_lt h
  unfold consumeIgnore readByte
  rcases hd : st.data.drop st.pos with _ | ⟨x, xs⟩
  · have := List.drop_eq_nil_iff.mp hd
    omega
  · rfl

theorem readBytes_ok {n : Nat} {st : DState} {bs : List Nat} {st1 : DState}
    (h : readBytes n st = .ok (bs, st1)) :
    st1.data = st.data ∧ st.pos ≤ st1.pos ∧ st1.pos ≤ st.data.length := by
  unfold readBytes at h
  split at h
  · exact absurd h (by simp)
  · split at h
    · exact absurd h (by simp)
    · rename_i h1 h2
      cases h
      refine ⟨rfl, ?_, ?_⟩
      · show st.pos ≤ (st.pos + n) % 2 ^ 64
        unfold goIntSum at h2
        split at h2 <;> omega
      · show (st.pos + n) % 2 ^ 64 ≤ st.data.length
        unfold goIntSum at h1 h2
        split at h1 <;> split at h2 <;> omega

theorem varintCore_consumed :
    ∀ (l : List Nat) (shift acc v c : Nat),
      varintCore l shift acc = .ok (v, c) → 1 ≤ c ∧ c ≤ l.length := by
  intro l
  induction l with
  | nil => intro shift acc v c h; exact absurd h (by simp [varintCore])
  | cons b rest ih =>
    intro shift acc v c h
    rw [varintCore] at h
    split at h
    · exact absurd h (by simp)
    · split at h
      · cases h; simp
      · dsimp only [] at h
        rcases h2 : varintCore rest (shift + 7) (acc + b % 128 * 2 ^ shift) with e | ⟨v2, c2⟩
        · rw [h2] at h; exact absurd h (by simp)
        · rw [h2] at h
          dsimp only [] at h
          cases h
          have := ih (shift + 7) (acc + b % 128 * 2 ^ shift) _ _ h2
          simp only [List.length_cons]
          omega

theorem readVarint_ok {st : DState} {v : Nat} {st1 : DState}
    (hwf : st.pos ≤ st.data.length) (h : readVarint st = .ok (v, st1)) :
    st1.data = st.data ∧ st.pos < st1.pos ∧ st1.pos ≤ st.data.length := by
  unfold readVarint at h
  rcases h2 : varintCore (st.data.drop st.pos) 0 0 with e | ⟨v2, c⟩
  · rw [h2] at h; exact absurd h (by simp)
  · rw [h2] at h
    dsimp only [] at h
    cases h
    have hc := varintCore_consumed _ 0 0 _ _ h2
    rw [List.length_drop] at hc
    refine ⟨rfl, ?_, ?_⟩
    · show st.pos < st.pos + c
      omega
    · show st.pos + c ≤ st.data.length
      omega

theorem readVarint32_ok {st : DState} {v : Nat} {st1 : DState}
    (hwf : st.pos ≤ st.data.length) (h : readVarint32 st = .ok (v, st1)) :
    st1.data = st.data ∧ st.pos < st1.pos ∧ st1.pos ≤ st.data.length := by
  unfold readVarint32 at h
  rcases h2 : readVarint st with e | ⟨v2, st2⟩
  · rw [h2] at h; exact absurd h (by simp)
  · rw [h2] at h
    dsimp only [] at h
    split at h
    · exact absurd h (by simp)
    · cases h; exact readVarint_ok hwf h2

theorem readZigZag32_ok {st : DState} {v : Int} {st1 : DState}
    (hwf : st.pos ≤ st.data.length) (h : readZigZag32 st = .ok (v, st1)) :
    st1.data = st.data ∧ st.pos < st1.pos ∧ st1.pos ≤ st.data.length := by
  unfold readZigZag32 at h
  rcases h2 : readVarint32 st with e | ⟨v2, st2⟩
  · rw [h2] at h; exact absurd h (by simp)
  · rw [h2] at h
    dsimp only [] at h
    cases h
    exact readVarint32_ok hwf h2

theorem readDouble_ok {st : DState} {v : Nat} {st1 : DState}
    (h : readDouble st = .ok (v, st1)) :
    st1.data = st.data ∧ st1.pos = st.pos + 8 ∧ st.pos + 8 ≤ st.data.length := by
  unfold readDouble at h
  split at h
  · cases h; exact ⟨rfl, rfl, by assumption⟩
  · exact absurd h (by simp)

theorem alignTo_steps (b : Nat) (st : DState) (hwf : st.pos ≤ st.data.length) :
    StepsTo st (alignTo b st) := by
  simp only [alignTo]
  split
  · exact ⟨rfl, le_refl _, hwf⟩
  · split
    · split
      · refine ⟨rfl, ?_, ?_⟩
        · show st.pos ≤ st.pos + (b - st.pos % b)
          omega
        · show st.pos + (b - st.pos % b) ≤ st.data.length
          omega
      · exact ⟨rfl, le_refl _, hwf⟩
    · exact ⟨rfl, le_refl _, hwf⟩

theorem readOneByteStringWire_ok {len : Int} {st : DState} {s : List Nat} {st1 : DState}
    (hwf : st.pos ≤ st.data.length)
    (h : readOneByteStringWire len st = .ok (s, st1)) : StepsTo st st1 := by
  unfold readOneByteStringWire at h
  split at h
  · exact absurd h (by simp)
  · split at h
    · cases h; exact ⟨rfl, le_refl _, hwf⟩
    · rcases h2 : readBytes len.toNat st with e | ⟨bs, st2⟩
      · rw [h2] at h; exact absurd h (by simp)
      · rw [h2] at h
        dsimp only [] at h
        cases h
        obtain ⟨hd, hp, hl⟩ := readBytes_ok h2
        exact ⟨hd, by omega, by omega⟩

theorem readTwoByteStringWire_ok {len : Int} {st : DState} {s : List Nat} {st1 : DState}
    (hwf : st.pos ≤ st.data.length)
    (h : readTwoByteStringWire len st = .ok (s, st1)) : StepsTo st st1 := by
  obtain ⟨hd, hp, hl⟩ := alignTo_steps 2 st hwf
  simp only [readTwoByteStringWire] at h
  split at h
  · exact absurd h (by simp)
  · split at h
    · cases h; exact ⟨rfl, le_refl _, hwf⟩
    · split at h
      · cases h
        rename_i hbound
        refine ⟨hd, ?_, ?_⟩
        · show st.pos ≤ (alignTo 2 st).pos + len.toNat * 2
          omega
        · show (alignTo 2 st).pos + len.toNat * 2 ≤ st.data.length
          rw [hd] at hbound
          omega
      · exact absurd h (by simp)

/-! ### Advancement of the non-recursive handlers -/

theorem readInt32V_steps {st : DState} {v : Value} {st1 : DState}
    (hwf : st.pos ≤ st.data.length) (h : readInt32V st = .ok (v, st1)) :
    StepsTo st st1 := by
  unfold readInt32V at h
  rcases h2 : readZigZag32 st with e | ⟨n, st2⟩
  · rw [h2] at h; exact absurd h (by simp)
  · rw [h2] at h
    dsimp only [] at h
    cases h
    obtain ⟨hd, hp, hl⟩ := readZigZag32_ok hwf h2
    exact ⟨hd, by omega, hl⟩

theorem readUint32V_steps {st : DState} {v : Value} {st1 : DState}
    (hwf : st.pos ≤ st.data.length) (h : readUint32V st = .ok (v, st1)) :
    StepsTo st st1 := by
  unfold readUint32V at h
  rcases h2 : readVarint32 st with e | ⟨n, st2⟩
  · rw [h2] at h; exact absurd h (by simp)
  · rw [h2] at h
    dsimp only [] at h
    cases h
    obtain ⟨hd, hp, hl⟩ := readVarint32_ok hwf h2
    exact ⟨hd, by omega, hl⟩

theorem readDoubleV_steps {st : DState} {v : Value} {st1 : DState}
    (hwf : st.pos ≤ st.data.length) (h : readDoubleV st = .ok (v, st1)) :
    StepsTo st st1 := by
  unfold readDoubleV at h
  rcases h2 : readDouble st with e | ⟨n, st2⟩
  · rw [h2] at h; exact absurd h (by simp)
  · rw [h2] at h
    dsimp only [] at h
    cases h
    obtain ⟨hd, hp, hl⟩ := readDouble_ok h2
    exact ⟨hd, by omega, by omega⟩

theorem readBigIntV_steps {st : DState} {v : Value} {st1 : DState}
    (hwf : st.pos ≤ st.data.length) (h : readBigIntV st = .ok (v, st1)) :
    StepsTo st st1 := by
  unfold readBigIntV at h
  rcases h2 : readVarint st with e | ⟨bf, st2⟩
  · rw [h2] at h; exact absurd h (by simp)
  · rw [h2] at h
    dsimp only [] at h
    obtain ⟨hd, hp, hl⟩ := readVarint_ok hwf h2
    split at h
    · cases h; exact ⟨hd, by omega, hl⟩
    · rcases h3 : readBytes (bf / 2) st2 with e | ⟨bs, st3⟩
      · rw [h3] at h; exact absurd h (by simp)
      · rw [h3] at h
        dsimp only [] at h
        cases h
        obtain ⟨hd3, hp3, hl3⟩ := readBytes_ok h3
        have hde : st2.data.length = st.data.length := by rw [hd]
        exact ⟨by rw [hd3, hd], by omega, by omega⟩

theorem readOneByteStringV_steps {st : DState} {v : Value} {st1 : DState}
    (hwf : st.pos ≤ st.data.length) (h : readOneByteStringV st = .ok (v, st1)) :
    StepsTo st st1 := by
  unfold readOneByteStringV at h
  rcases h2 : readVarint32 st with e | ⟨n, st2⟩
  · rw [h2] at h; exact absurd h (by simp)
  · rw [h2] at h
    dsimp only [] at h
    obtain ⟨hd, hp, hl⟩ := readVarint32_ok hwf h2
    rcases h3 : readOneByteStringWire (n : Int) st2 with e | ⟨s, st3⟩
    · rw [h3] at h; exact absurd h (by simp)
    · rw [h3] at h
      dsimp only [] at h
      cases h
      have hwf2 : st2.pos ≤ st2.data.length := by rw [hd]; omega
      obtain ⟨hd3, hp3, hl3⟩ := readOneByteStringWire_ok hwf2 h3
      have hde : st2.data.length = st.data.length := by rw [hd]
      refine ⟨?_, ?_, ?_⟩
      · show st3.data = st.data
        rw [hd3, hd]
      · show st.pos ≤ st3.pos
        omega
      · show st3.pos ≤ st.data.length
        omega

theorem readTwoByteStringV_steps {st : DState} {v : Value} {st1 : DState}
    (hwf : st.pos ≤ st.data.length) (h : readTwoByteStringV st = .ok (v, st1)) :
    StepsTo st st1 := by
  unfold readTwoByteStringV at h
  rcases h2 : readVarint32 st with e | ⟨n, st2⟩
  · rw [h2] at h; exact absurd h (by simp)
  · rw [h2] at h
    dsimp only [] at h
    obtain ⟨hd, hp, hl⟩ := readVarint32_ok hwf h2
    rcases h3 : readTwoByteStringWire ((n / 2 : Nat) : Int) st2 with e | ⟨s, st3⟩
    · rw [h3] at h; exact absurd h (by simp)
    · rw [h3] at h
      dsimp only [] at h
      cases h
      have hwf2 : st2.pos ≤ st2.data.length := by rw [hd]; omega
      obtain ⟨hd3, hp3, hl3⟩ := readTwoByteStringWire_ok hwf2 h3
      have hde : st2.data.length = st.data.length := by rw [hd]
      refine ⟨?_, ?_, ?_⟩
      · show st3.data = st.data
        rw [hd3, hd]
      · show st.pos ≤ st3.pos
        omega
      · show st3.pos ≤ st.data.length
        omega

theorem readDateV_steps {st : DState} {v : Value} {st1 : DState}
    (hwf : st.pos ≤ st.data.length) (h : readDateV st = .ok (v, st1)) :
    StepsTo st st1 := by
  unfold readDateV at h
  rcases h2 : readDouble st with e | ⟨n, st2⟩
  · rw [h2] at h; exact absurd h (by simp)
  · rw [h2] at h
    dsimp only [] at h
    cases h
    obtain ⟨hd, hp, hl⟩ := readDouble_ok h2
    exact ⟨hd, show st.pos ≤ st2.pos by omega, show st2.pos ≤ st.data.length by omega⟩

theorem readObjectReferenceV_steps {st : DState} {v : Value} {st1 : DState}
    (hwf : st.pos ≤ st.data.length) (h : readObjectReferenceV st = .ok (v, st1)) :
    StepsTo st st1 := by
  unfold readObjectReferenceV at h
  rcases h2 : readVarint32 st with e | ⟨n, st2⟩
  · rw [h2] at h; exact absurd h (by simp)
  · rw [h2] at h
    dsimp only [] at h
    obtain ⟨hd, hp, hl⟩ := readVarint32_ok hwf h2
    split at h
    · exact absurd h (by simp)
    · cases h; exact ⟨hd, by omega, hl⟩

theorem readArrayBufferV_steps {st : DState} {v : Value} {st1 : DState}
    (hwf : st.pos ≤ st.data.length) (h : readArrayBufferV st = .ok (v, st1)) :
    StepsTo st st1 := by
  unfold readArrayBufferV at h
  rcases h2 : readVarint32 st with e | ⟨n, st2⟩
  · rw [h2] at h; exact absurd h (by simp)
  · rw [h2] at h
    dsimp only [] at h
    obtain ⟨hd, hp, hl⟩ := readVarint32_ok hwf h2
    rcases h3 : readBytes n st2 with e | ⟨bs, st3⟩
    · rw [h3] at h; exact absurd h (by simp)
    · rw [h3] at h
      dsimp only [] at h
      cases h
      obtain ⟨hd3, hp3, hl3⟩ := readBytes_ok h3
      have hde : st2.data.length = st.data.length := by rw [hd]
      refine ⟨?_, ?_, ?_⟩
      · show st3.data = st.data
        rw [hd3, hd]
      · show st.pos ≤ st3.pos
        omega
      · show st3.pos ≤ st.data.length
        omega

theorem readTypedArrayV_steps {st : DState} {v : Value} {st1 : DState}
    (hwf : st.pos ≤ st.data.length) (h : readTypedArrayV st = .ok (v, st1)) :
    StepsTo st st1 := by
  unfold readTypedArrayV at h
  rcases h2 : readByte st with e | ⟨t, st2⟩
  · rw [h2] at h; exact absurd h (by simp)
  · rw [h2] at h
    dsimp only [] at h
    obtain ⟨hst2, hlt⟩ := readByte_ok h2
    subst hst2
    rcases h3 : readVarint32 { st with pos := st.pos + 1 } with e | ⟨n, st3⟩
    · rw [h3] at h; exact absurd h (by simp)
    · rw [h3] at h
      dsimp only [] at h
      have hwf2 : ({ st with pos := st.pos + 1 } : DState).pos ≤
          ({ st with pos := st.pos + 1 } : DState).data.length := by
        show st.pos + 1 ≤ st.data.length
        omega
      obtain ⟨hd3, hp3, hl3⟩ := readVarint32_ok hwf2 h3
      rcases h4 : readBytes n st3 with e | ⟨bs, st4⟩
      · rw [h4] at h; exact absurd h (by simp)
      · rw [h4] at h
        dsimp only [] at h
        cases h
        obtain ⟨hd4, hp4, hl4⟩ := readBytes_ok h4
        refine ⟨by rw [hd4, hd3], ?_, ?_⟩
        · show st.pos ≤ st4.pos
          have : ({ st with pos := st.pos + 1 } : DState).pos = st.pos + 1 := rfl
          omega
        · show st4.pos ≤ st.data.length
          have hde : st3.data.length = st.data.length := by rw [hd3]
          omega

theorem readNumberObjectV_steps {st : DState} {v : Value} {st1 : DState}
    (hwf : st.pos ≤ st.data.length) (h : readNumberObjectV st = .ok (v, st1)) :
    StepsTo st st1 := by
  unfold readNumberObjectV at h
  rcases h2 : readDouble st with e | ⟨n, st2⟩
  · rw [h2] at h; exact absurd h (by simp)
  · rw [h2] at h
    dsimp only [] at h
    cases h
    obtain ⟨hd, hp, hl⟩ := readDouble_ok h2
    exact ⟨hd, show st.pos ≤ st2.pos by omega, show st2.pos ≤ st.data.length by omega⟩

theorem readTrueObjectV_steps {st : DState} {v : Value} {st1 : DState}
    (hwf : st.pos ≤ st.data.length) (h : readTrueObjectV st = .ok (v, st1)) :
    StepsTo st st1 := by
  unfold readTrueObjectV at h
  cases h
  exact ⟨rfl, le_refl _, hwf⟩

theorem readFalseObjectV_steps {st : DState} {v : Value} {st1 : DState}
    (hwf : st.pos ≤ st.data.length) (h : readFalseObjectV st = .ok (v, st1)) :
    StepsTo st st1 := by
  unfold readFalseObjectV at h
  cases h
  exact ⟨rfl, le_refl _, hwf⟩

/-! ### Fuel sufficiency: the decoder never runs out of fuel -/

/-- The state a decoder call starts from. -/
def callState : DCall → DState
  | .value st => st
  | .skipPad st => st
  | .dispatch _ st => st
  | .objBody st => st
  | .objPairs _ st => st
  | .denseBody st => st
  | .denseElems _ _ st => st
  | .denseExtra st => st
  | .sparseBody st => st
  | .sparsePairs _ st => st
  | .mapBody st => st
  | .mapPairs _ st => st
  | .setBody st => st
  | .setVals _ st => st
  | .regexpBody st => st
  | .stringObjBody st => st
  | .bigintObjBody st => st
  | .errorBody st => st
  | .errorProps _ st => st

/-- Fuel-slack constant of a decoder call: the call terminates whenever
`4 * (remaining bytes) + callCost c` units of fuel are available. -/
def callCost : DCall → Nat
  | .value _ => 2
  | .skipPad _ => 1
  | .dispatch _ _ => 5
  | .objBody _ => 4
  | .objPairs _ _ => 3
  | .denseBody _ => 4
  | .denseElems _ _ _ => 3
  | .denseExtra _ => 3
  | .sparseBody _ => 4
  | .sparsePairs _ _ => 3
  | .mapBody _ => 4
  | .mapPairs _ _ => 3
  | .setBody _ => 4
  | .setVals _ _ => 3
  | .regexpBody _ => 4
  | .stringObjBody _ => 4
  | .bigintObjBody _ => 4
  | .errorBody _ => 4
  | .errorProps _ _ => 3

/-- What a successful decoder call guarantees about its final state: the
cursor stays in bounds and does not move backwards; a `value` call
additionally consumes at least one byte (its tag). -/
def okAdvance : DCall → DState → Prop
  | .value st, st1 => StrictStepsTo st st1
  | c, st1 => StepsTo (callState c) st1

theorem progress_leafOk {P : Prop} {A : DState → Prop} {o0 : DOut} {st0 : DState}
    (h : A st0) :
    (P → (DRes.ok o0 st0 : DRes DOut) ≠ .fuelOut) ∧
    (∀ o st1, (DRes.ok o0 st0 : DRes DOut) = .ok o st1 → A st1) :=
  ⟨fun _ h2 => by simp at h2, fun o st1 h2 => by cases h2; exact h⟩

theorem progress_leafErr {P : Prop} {A : DState → Prop} {e : DErr} :
    (P → (DRes.err e : DRes DOut) ≠ .fuelOut) ∧
    (∀ o st1, (DRes.err e : DRes DOut) = .ok o st1 → A st1) :=
  ⟨fun _ h2 => by simp at h2, fun o st1 h2 => by simp at h2⟩

theorem progress_leafFuelOut {P : Prop} {A : DState → Prop} (h : ¬ P) :
    (P → (DRes.fuelOut : DRes DOut) ≠ .fuelOut) ∧
    (∀ o st1, (DRes.fuelOut : DRes DOut) = .ok o st1 → A st1) :=
  ⟨fun hp => absurd hp h, fun o st1 h2 => by simp at h2⟩

/-- Termination of the decoder: with `4 * (remaining bytes) + callCost c`
units of fuel a call never reports `fuelOut`, and a successful call moves
the cursor forward within bounds (strictly, for a `value` call). One
induction on the fuel, with a case analysis on the call. -/
theorem decoder_progress : ∀ (fuel : Nat) (c : DCall),
    (callState c).pos ≤ (callState c).data.length →
    (4 * ((callState c).data.length - (callState c).pos) + callCost c ≤ fuel →
        decodeRun fuel c ≠ .fuelOut) ∧
    (∀ o st1, decodeRun fuel c = .ok o st1 → okAdvance c st1) := by
  intro fuel
  induction fuel with
  | zero =>
    intro c hwf
    constructor
    · intro hb
      exfalso
      cases c <;> (dsimp only [callCost] at hb; omega)
    · intro o st1 hok
      rw [decodeRun_zero] at hok
      simp at hok
  | succ n ih =>
    intro c hwf
    have ihA : ∀ (c2 : DCall) (o : DOut) (st2 : DState), decodeRun n c2 = .ok o st2 →
        (callState c2).pos ≤ (callState c2).data.length → okAdvance c2 st2 :=
      fun c2 o st2 h hw => (ih c2 hw).2 o st2 h
    have ihF : ∀ (c2 : DCall), decodeRun n c2 = .fuelOut →
        (callState c2).pos ≤ (callState c2).data.length →
        4 * ((callState c2).data.length - (callState c2).pos) + callCost c2 ≤ n → False :=
      fun c2 h hw hb => (ih c2 hw).1 hb h
    rw [decodeRun_succ]
    cases c with
    | value st0 =>
      dsimp only [callState, callCost, okAdvance] at hwf ⊢
      simp only [decodeStep]
      split
      · exact progress_leafErr
      · simp only [dbindUnit]
        split
        · rename_i st1 heq1
          have hadv1 := ihA _ _ _ heq1 hwf
          obtain ⟨e1, q1, r1⟩ := hadv1
          have e1' : st1.data = st0.data := e1
          have q1' : st0.pos ≤ st1.pos := q1
          have r1' : st1.pos ≤ st0.data.length := r1
          have hla : st1.data.length = st0.data.length := by rw [e1']
          split
          · exact progress_leafErr
          · rename_i tag st2 hrb
            obtain ⟨hst2, hlt⟩ := readByte_ok hrb
            subst hst2
            have hwf2 : st1.pos + 1 ≤ st1.data.length := hlt
            simp only [dbindVal]
            split
            · rename_i v st3 heq2
              have hadv2 := ihA _ _ _ heq2 hwf2
              obtain ⟨e2, q2, r2⟩ := hadv2
              have e2' : st3.data = st1.data := e2
              have q2' : st1.pos + 1 ≤ st3.pos := q2
              have r2' : st3.pos ≤ st1.data.length := r2
              exact progress_leafOk
                ⟨by show st3.data = st0.data; rw [e2', e1'],
                 by show st0.pos < st3.pos; omega,
                 by show st3.pos ≤ st0.data.length; omega⟩
            · exact progress_leafErr
            · exact progress_leafErr
            · rename_i heq2
              refine progress_leafFuelOut ?_
              intro hb
              refine ihF _ heq2 hwf2 ?_
              show 4 * (st1.data.length - (st1.pos + 1)) + 5 ≤ n
              omega
        · exact progress_leafErr
        · exact progress_leafErr
        · rename_i heq1
          refine progress_leafFuelOut ?_
          intro hb
          refine ihF _ heq1 hwf ?_
          show 4 * (st0.data.length - st0.pos) + 1 ≤ n
          omega
    | skipPad st =>
      dsimp only [callState, callCost, okAdvance] at hwf ⊢
      simp only [decodeStep]
      split
      · exact progress_leafErr
      · rename_i tag hp
        split
        · exact progress_leafOk ⟨rfl, le_refl _, hwf⟩
        · rw [consumeIgnore_of_peek hp]
          have hlt := peek_ok_lt hp
          have hwf1 : st.pos + 1 ≤ st.data.length := hlt
          rcases hres : decodeRun n (.skipPad { st with pos := st.pos + 1 }) with ⟨o2, st2⟩ | e | _
          · have hadv := ihA _ _ _ hres hwf1
            obtain ⟨d1, p1, l1⟩ := hadv
            have d1' : st2.data = st.data := d1
            have p1' : st.pos + 1 ≤ st2.pos := p1
            have l1' : st2.pos ≤ st.data.length := l1
            exact progress_leafOk ⟨d1', by omega, l1'⟩
          · exact progress_leafErr
          · refine progress_leafFuelOut ?_
            intro hb
            refine ihF _ hres hwf1 ?_
            show 4 * (st.data.length - (st.pos + 1)) + 1 ≤ n
            omega
    | dispatch tag st =>
      dsimp only [callState, callCost, okAdvance] at hwf ⊢
      simp only [decodeStep]
      unfold dispatchStep
      by_cases ht1 : tag = tagNull
      · rw [if_pos ht1]
        exact progress_leafOk ⟨rfl, le_refl _, hwf⟩
      rw [if_neg ht1]
      by_cases ht2 : tag = tagUndefined
      · rw [if_pos ht2]
        exact progress_leafOk ⟨rfl, le_refl _, hwf⟩
      rw [if_neg ht2]
      by_cases ht3 : tag = tagTrue
      · rw [if_pos ht3]
        exact progress_leafOk ⟨rfl, le_refl _, hwf⟩
      rw [if_neg ht3]
      by_cases ht4 : tag = tagFalse
      · rw [if_pos ht4]
        exact progress_leafOk ⟨rfl, le_refl _, hwf⟩
      rw [if_neg ht4]
      by_cases ht5 : tag = tagHole
      · rw [if_pos ht5]
        exact progress_leafOk ⟨rfl, le_refl _, hwf⟩
      rw [if_neg ht5]
      by_cases ht6 : tag = tagInt32
      · rw [if_pos ht6]
        rcases hr : readInt32V st with e | ⟨v, st2⟩
        · exact progress_leafErr
        · exact progress_leafOk (readInt32V_steps hwf hr)
      rw [if_neg ht6]
      by_cases ht7 : tag = tagUint32
      · rw [if_pos ht7]
        rcases hr : readUint32V st with e | ⟨v, st2⟩
        · exact progress_leafErr
        · exact progress_leafOk (readUint32V_steps hwf hr)
      rw [if_neg ht7]
      by_cases ht8 : tag = tagDouble
      · rw [if_pos ht8]
        rcases hr : readDoubleV st with e | ⟨v, st2⟩
        · exact progress_leafErr
        · exact progress_leafOk (readDoubleV_steps hwf hr)
      rw [if_neg ht8]
      by_cases ht9 : tag = tagBigInt
      · rw [if_pos ht9]
        rcases hr : readBigIntV st with e | ⟨v, st2⟩
        · exact progress_leafErr
        · exact progress_leafOk (readBigIntV_steps hwf hr)
      rw [if_neg ht9]
      by_cases ht10 : tag = tagOneByteString
      · rw [if_pos ht10]
        rcases hr : readOneByteStringV st with e | ⟨v, st2⟩
        · exact progress_leafErr
        · exact progress_leafOk (readOneByteStringV_steps hwf hr)
      rw [if_neg ht10]
      by_cases ht11 : tag = tagTwoByteString
      · rw [if_pos ht11]
        rcases hr : readTwoByteStringV st with e | ⟨v, st2⟩
        · exact progress_leafErr
        · exact progress_leafOk (readTwoByteStringV_steps hwf hr)
      rw [if_neg ht11]
      by_cases ht12 : tag = tagDate
      · rw [if_pos ht12]
        rcases hr : readDateV st with e | ⟨v, st2⟩
        · exact progress_leafErr
        · exact progress_leafOk (readDateV_steps hwf hr)
      rw [if_neg ht12]
      by_cases ht13 : tag = tagBeginJSObject
      · rw [if_pos ht13]
        rcases hres : decodeRun n (.objBody st) with ⟨o2, st2⟩ | e | _
        · exact progress_leafOk (ihA _ _ _ hres hwf)
        · exact progress_leafErr
        · refine progress_leafFuelOut ?_
          intro hb
          refine ihF _ hres hwf ?_
          show 4 * (st.data.length - st.pos) + 4 ≤ n
          omega
      rw [if_neg ht13]
      by_cases ht14 : tag = tagBeginDenseArray
      · rw [if_pos ht14]
        rcases hres : decodeRun n (.denseBody st) with ⟨o2, st2⟩ | e | _
        · exact progress_leafOk (ihA _ _ _ hres hwf)
        · exact progress_leafErr
        · refine progress_leafFuelOut ?_
          intro hb
          refine ihF _ hres hwf ?_
          show 4 * (st.data.length - st.pos) + 4 ≤ n
          omega
      rw [if_neg ht14]
      by_cases ht15 : tag = tagBeginSparseArray
      · rw [if_pos ht15]
        rcases hres : decodeRun n (.sparseBody st) with ⟨o2, st2⟩ | e | _
        · exact progress_leafOk (ihA _ _ _ hres hwf)
        · exact progress_leafErr
        · refine progress_leafFuelOut ?_
          intro hb
          refine ihF _ hres hwf ?_
          show 4 * (st.data.length - st.pos) + 4 ≤ n
          omega
      rw [if_neg ht15]
      by_cases ht16 : tag = tagObjectReference
      · rw [if_pos ht16]
        rcases hr : readObjectReferenceV st with e | ⟨v, st2⟩
        · exact progress_leafErr
        · exact progress_leafOk (readObjectReferenceV_steps hwf hr)
      rw [if_neg ht16]
      by_cases ht17 : tag = tagBeginMap
      · rw [if_pos ht17]
        rcases hres : decodeRun n (.mapBody st) with ⟨o2, st2⟩ | e | _
        · exact progress_leafOk (ihA _ _ _ hres hwf)
        · exact progress_leafErr
        · refine progress_leafFuelOut ?_
          intro hb
          refine ihF _ hres hwf ?_
          show 4 * (st.data.length - st.pos) + 4 ≤ n
          omega
      rw [if_neg ht17]
      by_cases ht18 : tag = tagBeginSet
      · rw [if_pos ht18]
        rcases hres : decodeRun n (.setBody st) with ⟨o2, st2⟩ | e | _
        · exact progress_leafOk (ihA _ _ _ hres hwf)
        · exact progress_leafErr
        · refine progress_leafFuelOut ?_
          intro hb
          refine ihF _ hres hwf ?_
          show 4 * (st.data.length - st.pos) + 4 ≤ n
          omega
      rw [if_neg ht18]
      by_cases ht19 : tag = tagArrayBuffer
      · rw [if_pos ht19]
        rcases hr : readArrayBufferV st with e | ⟨v, st2⟩
        · exact progress_leafErr
        · exact progress_leafOk (readArrayBufferV_steps hwf hr)
      rw [if_neg ht19]
      by_cases ht20 : tag = tagTypedArray
      · rw [if_pos ht20]
        rcases hr : readTypedArrayV st with e | ⟨v, st2⟩
        · exact progress_leafErr
        · exact progress_leafOk (readTypedArrayV_steps hwf hr)
      rw [if_neg ht20]
      by_cases ht21 : tag = tagRegExp
      · rw [if_pos ht21]
        rcases hres : decodeRun n (.regexpBody st) with ⟨o2, st2⟩ | e | _
        · exact progress_leafOk (ihA _ _ _ hres hwf)
        · exact progress_leafErr
        · refine progress_leafFuelOut ?_
          intro hb
          refine ihF _ hres hwf ?_
          show 4 * (st.data.length - st.pos) + 4 ≤ n
          omega
      rw [if_neg ht21]
      by_cases ht22 : tag = tagNumberObject
      · rw [if_pos ht22]
        rcases hr : readNumberObjectV st with e | ⟨v, st2⟩
        · exact progress_leafErr
        · exact progress_leafOk (readNumberObjectV_steps hwf hr)
      rw [if_neg ht22]
      by_cases ht23 : tag = tagTrueObject
      · rw [if_pos ht23]
        rcases hr : readTrueObjectV st with e | ⟨v, st2⟩
        · exact progress_leafErr
        · exact progress_leafOk (readTrueObjectV_steps hwf hr)
      rw [if_neg ht23]
      by_cases ht24 : tag = tagFalseObject
      · rw [if_pos ht24]
        rcases hr : readFalseObjectV st with e | ⟨v, st2⟩
        · exact progress_leafErr
        · exact progress_leafOk (readFalseObjectV_steps hwf hr)
      rw [if_neg ht24]
      by_cases ht25 : tag = tagStringObject
      · rw [if_pos ht25]
        rcases hres : decodeRun n (.stringObjBody st) with ⟨o2, st2⟩ | e | _
        · exact progress_leafOk (ihA _ _ _ hres hwf)
        · exact progress_leafErr
        · refine progress_leafFuelOut ?_
          intro hb
          refine ihF _ hres hwf ?_
          show 4 * (st.data.length - st.pos) + 4 ≤ n
          omega
      rw [if_neg ht25]
      by_cases ht26 : tag = tagBigIntObject
      · rw [if_pos ht26]
        rcases hres : decodeRun n (.bigintObjBody st) with ⟨o2, st2⟩ | e | _
        · exact progress_leafOk (ihA _ _ _ hres hwf)
        · exact progress_leafErr
        · refine progress_leafFuelOut ?_
          intro hb
          refine ihF _ hres hwf ?_
          show 4 * (st.data.length - st.pos) + 4 ≤ n
          omega
      rw [if_neg ht26]
      by_cases ht27 : tag = tagError
      · rw [if_pos ht27]
        rcases hres : decodeRun n (.errorBody st) with ⟨o2, st2⟩ | e | _
        · exact progress_leafOk (ihA _ _ _ hres hwf)
        · exact progress_leafErr
        · refine progress_leafFuelOut ?_
          intro hb
          refine ihF _ hres hwf ?_
          show 4 * (st.data.length - st.pos) + 4 ≤ n
          omega
      rw [if_neg ht27]
      exact progress_leafErr
    | objBody st =>
      dsimp only [callState, callCost, okAdvance] at hwf ⊢
      simp only [decodeStep]
      simp only [dbindUnit]
      split
      · rename_i st2 heq1
        have hadv1 := ihA _ _ _ heq1 hwf
        obtain ⟨e1, q1, r1⟩ := hadv1
        have e1' : st2.data = st.data := e1
        have q1' : st.pos ≤ st2.pos := q1
        have r1' : st2.pos ≤ st.data.length := r1
        exact progress_leafOk ⟨by show st2.data = st.data; exact e1', q1', r1'⟩
      · exact progress_leafErr
      · exact progress_leafErr
      · rename_i heq1
        refine progress_leafFuelOut ?_
        intro hb
        refine ihF _ heq1 hwf ?_
        show 4 * (st.data.length - st.pos) + 3 ≤ n
        omega
    | objPairs hh st =>
      dsimp only [callState, callCost, okAdvance] at hwf ⊢
      simp only [decodeStep]
      split
      · exact progress_leafErr
      · rename_i tag hp
        split
        · rw [consumeIgnore_of_peek hp]
          have hlt := peek_ok_lt hp
          split
          · exact progress_leafErr
          · rename_i u st2 hrv
            obtain ⟨e1, q1, r1⟩ :=
              readVarint32_ok (show st.pos + 1 ≤ st.data.length from hlt) hrv
            have e1' : st2.data = st.data := e1
            have q1' : st.pos + 1 < st2.pos := q1
            have r1' : st2.pos ≤ st.data.length := r1
            exact progress_leafOk ⟨e1', by omega, r1'⟩
        · simp only [dbindVal]
          split
          · rename_i key stk heq1
            have hadv1 : StrictStepsTo st stk := ihA _ _ _ heq1 hwf
            obtain ⟨e1, q1, r1⟩ := hadv1
            have hwfk : stk.pos ≤ stk.data.length := by rw [e1]; exact r1
            have hla : stk.data.length = st.data.length := by rw [e1]
            split
            · exact progress_leafErr
            · rename_i keyStr hks
              split
              · rename_i val stv heq2
                have hadv2 : StrictStepsTo stk stv := ihA _ _ _ heq2 hwfk
                obtain ⟨e2, q2, r2⟩ := hadv2
                have hwfv : stv.pos ≤ stv.data.length := by rw [e2]; exact r2
                have hlb : stv.data.length = stk.data.length := by rw [e2]
                refine ⟨?_, ?_⟩
                · intro hb hfo
                  refine ihF _ hfo hwfv ?_
                  show 4 * (stv.data.length - stv.pos) + 3 ≤ n
                  omega
                · intro o st1 hok
                  have hadv3 := ihA _ _ _ hok hwfv
                  obtain ⟨e3, q3, r3⟩ := hadv3
                  have e3' : st1.data = stv.data := e3
                  have q3' : stv.pos ≤ st1.pos := q3
                  have r3' : st1.pos ≤ stv.data.length := r3
                  refine ⟨?_, ?_, ?_⟩
                  · show st1.data = st.data
                    rw [e3', e2, e1]
                  · show st.pos ≤ st1.pos
                    omega
                  · show st1.pos ≤ st.data.length
                    rw [hlb, hla] at r3'
                    exact r3'
              · exact progress_leafErr
              · exact progress_leafErr
              · rename_i heq2
                refine progress_leafFuelOut ?_
                intro hb
                refine ihF _ heq2 hwfk ?_
                show 4 * (stk.data.length - stk.pos) + 2 ≤ n
                omega
          · exact progress_leafErr
          · exact progress_leafErr
          · rename_i heq1
            refine progress_leafFuelOut ?_
            intro hb
            refine ihF _ heq1 hwf ?_
            show 4 * (st.data.length - st.pos) + 2 ≤ n
            omega
    | denseBody st =>
      dsimp only [callState, callCost, okAdvance] at hwf ⊢
      simp only [decodeStep]
      split
      · exact progress_leafErr
      · rename_i length st1 hrv
        obtain ⟨e1, q1, r1⟩ := readVarint32_ok hwf hrv
        have hwf1 : st1.pos ≤ st1.data.length := by rw [e1]; exact r1
        have hla : st1.data.length = st.data.length := by rw [e1]
        split
        · exact progress_leafErr
        · simp only [dbindHdr]
          split
          · rename_i hdr2 st3 heq1
            have hadv1 := ihA _ _ _ heq1 hwf1
            obtain ⟨e2, q2, r2⟩ := hadv1
            have e2' : st3.data = st1.data := e2
            have q2' : st1.pos ≤ st3.pos := q2
            have r2' : st3.pos ≤ st1.data.length := r2
            have hlb : st3.data.length = st1.data.length := by rw [e2']
            have hwf3 : st3.pos ≤ st3.data.length := by rw [e2']; exact r2'
            simp only [dbindUnit]
            split
            · rename_i st4 heq2
              have hadv2 : StepsTo st3 st4 := ihA _ _ _ heq2 hwf3
              obtain ⟨e3, q3, r3⟩ := hadv2
              refine progress_leafOk ⟨?_, ?_, ?_⟩
              · show st4.data = st.data
                rw [e3, e2', e1]
              · show st.pos ≤ st4.pos
                omega
              · show st4.pos ≤ st.data.length
                rw [hlb, hla] at r3
                exact r3
            · exact progress_leafErr
            · exact progress_leafErr
            · rename_i heq2
              refine progress_leafFuelOut ?_
              intro hb
              refine ihF _ heq2 hwf3 ?_
              show 4 * (st3.data.length - st3.pos) + 3 ≤ n
              omega
          · exact progress_leafErr
          · exact progress_leafErr
          · rename_i heq1
            refine progress_leafFuelOut ?_
            intro hb
            refine ihF _ heq1 hwf1 ?_
            show 4 * (st1.data.length - st1.pos) + 3 ≤ n
            omega
    | denseElems count hdr st =>
      dsimp only [callState, callCost, okAdvance] at hwf ⊢
      simp only [decodeStep]
      split
      · exact progress_leafOk ⟨rfl, le_refl _, hwf⟩
      · rename_i count2 hcount
        simp only [dbindVal]
        split
        · rename_i elem st1 heq1
          have hadv1 : StrictStepsTo st st1 := ihA _ _ _ heq1 hwf
          obtain ⟨e1, q1, r1⟩ := hadv1
          have hwf1 : st1.pos ≤ st1.data.length := by rw [e1]; exact r1
          have hla : st1.data.length = st.data.length := by rw [e1]
          refine ⟨?_, ?_⟩
          · intro hb hfo
            refine ihF _ hfo hwf1 ?_
            show 4 * (st1.data.length - st1.pos) + 3 ≤ n
            omega
          · intro o st1' hok
            have hadv2 : StepsTo st1 st1' := ihA _ _ _ hok hwf1
            obtain ⟨e2, q2, r2⟩ := hadv2
            have e2' : st1'.data = st1.data := e2
            have q2' : st1.pos ≤ st1'.pos := q2
            have r2' : st1'.pos ≤ st1.data.length := r2
            refine ⟨?_, ?_, ?_⟩
            · show st1'.data = st.data
              rw [e2', e1]
            · show st.pos ≤ st1'.pos
              omega
            · show st1'.pos ≤ st.data.length
              rw [hla] at r2'
              exact r2'
        · exact progress_leafErr
        · exact progress_leafErr
        · rename_i heq1
          refine progress_leafFuelOut ?_
          intro hb
          refine ihF _ heq1 hwf ?_
          show 4 * (st.data.length - st.pos) + 2 ≤ n
          omega
    | denseExtra st =>
      dsimp only [callState, callCost, okAdvance] at hwf ⊢
      simp only [decodeStep]
      split
      · exact progress_leafErr
      · rename_i tag hp
        split
        · rw [consumeIgnore_of_peek hp]
          have hlt := peek_ok_lt hp
          split
          · exact progress_leafErr
          · rename_i u st2 hrv1
            obtain ⟨e1, q1, r1⟩ :=
              readVarint32_ok (show st.pos + 1 ≤ st.data.length from hlt) hrv1
            have e1' : st2.data = st.data := e1
            have q1' : st.pos + 1 < st2.pos := q1
            have r1' : st2.pos ≤ st.data.length := r1
            have hwf2 : st2.pos ≤ st2.data.length := by rw [e1']; exact r1'
            split
            · exact progress_leafErr
            · rename_i u2 st3 hrv2
              obtain ⟨e2, q2, r2⟩ := readVarint32_ok hwf2 hrv2
              refine progress_leafOk ⟨?_, ?_, ?_⟩
              · show st3.data = st.data
                rw [e2, e1']
              · show st.pos ≤ st3.pos
                omega
              · show st3.pos ≤ st.data.length
                rw [e1'] at r2
                exact r2
        · simp only [dbindVal]
          split
          · rename_i v1 st1 heq1
            have hadv1 : StrictStepsTo st st1 := ihA _ _ _ heq1 hwf
            obtain ⟨e1, q1, r1⟩ := hadv1
            have hwf1 : st1.pos ≤ st1.data.length := by rw [e1]; exact r1
            have hla : st1.data.length = st.data.length := by rw [e1]
            split
            · rename_i v2 st2 heq2
              have hadv2 : StrictStepsTo st1 st2 := ihA _ _ _ heq2 hwf1
              obtain ⟨e2, q2, r2⟩ := hadv2
              have hwf2 : st2.pos ≤ st2.data.length := by rw [e2]; exact r2
              have hlb : st2.data.length = st1.data.length := by rw [e2]
              refine ⟨?_, ?_⟩
              · intro hb hfo
                refine ihF _ hfo hwf2 ?_
                show 4 * (st2.data.length - st2.pos) + 3 ≤ n
                omega
              · intro o st1' hok
                have hadv3 : StepsTo st2 st1' := ihA _ _ _ hok hwf2
                obtain ⟨e3, q3, r3⟩ := hadv3
                refine ⟨?_, ?_, ?_⟩
                · show st1'.data = st.data
                  rw [e3, e2, e1]
                · show st.pos ≤ st1'.pos
                  omega
                · show st1'.pos ≤ st.data.length
                  rw [hlb, hla] at r3
                  exact r3
            · exact progress_leafErr
            · exact progress_leafErr
            · rename_i heq2
              refine progress_leafFuelOut ?_
              intro hb
              refine ihF _ heq2 hwf1 ?_
              show 4 * (st1.data.length - st1.pos) + 2 ≤ n
              omega
          · exact progress_leafErr
          · exact progress_leafErr
          · rename_i heq1
            refine progress_leafFuelOut ?_
            intro hb
            refine ihF _ heq1 hwf ?_
            show 4 * (st.data.length - st.pos) + 2 ≤ n
            omega
    | sparseBody st =>
      dsimp only [callState, callCost, okAdvance] at hwf ⊢
      simp only [decodeStep]
      split
      · exact progress_leafErr
      · rename_i length st1 hrv
        obtain ⟨e1, q1, r1⟩ := readVarint32_ok hwf hrv
        have hwf1 : st1.pos ≤ st1.data.length := by rw [e1]; exact r1
        have hla : st1.data.length = st.data.length := by rw [e1]
        split
        · exact progress_leafErr
        · simp only [dbindUnit]
          split
          · rename_i st3 heq1
            have hadv1 := ihA _ _ _ heq1 hwf1
            obtain ⟨e2, q2, r2⟩ := hadv1
            have e2' : st3.data = st1.data := e2
            have q2' : st1.pos ≤ st3.pos := q2
            have r2' : st3.pos ≤ st1.data.length := r2
            refine progress_leafOk ⟨?_, ?_, ?_⟩
            · show st3.data = st.data
              rw [e2', e1]
            · show st.pos ≤ st3.pos
              omega
            · show st3.pos ≤ st.data.length
              rw [hla] at r2'
              exact r2'
          · exact progress_leafErr
          · exact progress_leafErr
          · rename_i heq1
            refine progress_leafFuelOut ?_
            intro hb
            refine ihF _ heq1 hwf1 ?_
            show 4 * (st1.data.length - st1.pos) + 3 ≤ n
            omega
    | sparsePairs hdr st =>
      dsimp only [callState, callCost, okAdvance] at hwf ⊢
      simp only [decodeStep]
      split
      · exact progress_leafErr
      · rename_i tag hp
        split
        · rw [consumeIgnore_of_peek hp]
          have hlt := peek_ok_lt hp
          split
          · exact progress_leafErr
          · rename_i u st2 hrv1
            obtain ⟨e1, q1, r1⟩ :=
              readVarint32_ok (show st.pos + 1 ≤ st.data.length from hlt) hrv1
            have e1' : st2.data = st.data := e1
            have q1' : st.pos + 1 < st2.pos := q1
            have r1' : st2.pos ≤ st.data.length := r1
            have hwf2 : st2.pos ≤ st2.data.length := by rw [e1']; exact r1'
            split
            · exact progress_leafErr
            · rename_i u2 st3 hrv2
              obtain ⟨e2, q2, r2⟩ := readVarint32_ok hwf2 hrv2
              refine progress_leafOk ⟨?_, ?_, ?_⟩
              · show st3.data = st.data
                rw [e2, e1']
              · show st.pos ≤ st3.pos
                omega
              · show st3.pos ≤ st.data.length
                rw [e1'] at r2
                exact r2
        · simp only [dbindVal]
          split
          · rename_i key stk heq1
            have hadv1 : StrictStepsTo st stk := ihA _ _ _ heq1 hwf
            obtain ⟨e1, q1, r1⟩ := hadv1
            have hwfk : stk.pos ≤ stk.data.length := by rw [e1]; exact r1
            have hla : stk.data.length = st.data.length := by rw [e1]
            split
            · rename_i val stv heq2
              have hadv2 : StrictStepsTo stk stv := ihA _ _ _ heq2 hwfk
              obtain ⟨e2, q2, r2⟩ := hadv2
              have hwfv : stv.pos ≤ stv.data.length := by rw [e2]; exact r2
              have hlb : stv.data.length = stk.data.length := by rw [e2]
              refine ⟨?_, ?_⟩
              · intro hb hfo
                refine ihF _ hfo hwfv ?_
                show 4 * (stv.data.length - stv.pos) + 3 ≤ n
                omega
              · intro o st1 hok
                have hadv3 := ihA _ _ _ hok hwfv
                obtain ⟨e3, q3, r3⟩ := hadv3
                have e3' : st1.data = stv.data := e3
                have q3' : stv.pos ≤ st1.pos := q3
                have r3' : st1.pos ≤ stv.data.length := r3
                refine ⟨?_, ?_, ?_⟩
                · show st1.data = st.data
                  rw [e3', e2, e1]
                · show st.pos ≤ st1.pos
                  omega
                · show st1.pos ≤ st.data.length
                  rw [hlb, hla] at r3'
                  exact r3'
            · exact progress_leafErr
            · exact progress_leafErr
            · rename_i heq2
              refine progress_leafFuelOut ?_
              intro hb
              refine ihF _ heq2 hwfk ?_
              show 4 * (stk.data.length - stk.pos) + 2 ≤ n
              omega
          · exact progress_leafErr
          · exact progress_leafErr
          · rename_i heq1
            refine progress_leafFuelOut ?_
            intro hb
            refine ihF _ heq1 hwf ?_
            show 4 * (st.data.length - st.pos) + 2 ≤ n
            omega
    | mapBody st =>
      dsimp only [callState, callCost, okAdvance] at hwf ⊢
      simp only [decodeStep]
      simp only [dbindEntries]
      split
      · rename_i entries st2 heq1
        have hadv1 := ihA _ _ _ heq1 hwf
        obtain ⟨e1, q1, r1⟩ := hadv1
        have e1' : st2.data = st.data := e1
        have q1' : st.pos ≤ st2.pos := q1
        have r1' : st2.pos ≤ st.data.length := r1
        exact progress_leafOk ⟨by show st2.data = st.data; exact e1', q1', r1'⟩
      · exact progress_leafErr
      · exact progress_leafErr
      · rename_i heq1
        refine progress_leafFuelOut ?_
        intro hb
        refine ihF _ heq1 hwf ?_
        show 4 * (st.data.length - st.pos) + 3 ≤ n
        omega
    | mapPairs entries st =>
      dsimp only [callState, callCost, okAdvance] at hwf ⊢
      simp only [decodeStep]
      split
      · exact progress_leafErr
      · rename_i tag hp
        split
        · rw [consumeIgnore_of_peek hp]
          have hlt := peek_ok_lt hp
          split
          · exact progress_leafErr
          · rename_i u st2 hrv
            obtain ⟨e1, q1, r1⟩ :=
              readVarint32_ok (show st.pos + 1 ≤ st.data.length from hlt) hrv
            have e1' : st2.data = st.data := e1
            have q1' : st.pos + 1 < st2.pos := q1
            have r1' : st2.pos ≤ st.data.length := r1
            exact progress_leafOk ⟨e1', by omega, r1'⟩
        · simp only [dbindVal]
          split
          · rename_i key stk heq1
            have hadv1 : StrictStepsTo st stk := ihA _ _ _ heq1 hwf
            obtain ⟨e1, q1, r1⟩ := hadv1
            have hwfk : stk.pos ≤ stk.data.length := by rw [e1]; exact r1
            have hla : stk.data.length = st.data.length := by rw [e1]
            split
            · rename_i val stv heq2
              have hadv2 : StrictStepsTo stk stv := ihA _ _ _ heq2 hwfk
              obtain ⟨e2, q2, r2⟩ := hadv2
              have hwfv : stv.pos ≤ stv.data.length := by rw [e2]; exact r2
              have hlb : stv.data.length = stk.data.length := by rw [e2]
              refine ⟨?_, ?_⟩
              · intro hb hfo
                refine ihF _ hfo hwfv ?_
                show 4 * (stv.data.length - stv.pos) + 3 ≤ n
                omega
              · intro o st1 hok
                have hadv3 : StepsTo stv st1 := ihA _ _ _ hok hwfv
                obtain ⟨e3, q3, r3⟩ := hadv3
                refine ⟨?_, ?_, ?_⟩
                · show st1.data = st.data
                  rw [e3, e2, e1]
                · show st.pos ≤ st1.pos
                  omega
                · show st1.pos ≤ st.data.length
                  rw [hlb, hla] at r3
                  exact r3
            · exact progress_leafErr
            · exact progress_leafErr
            · rename_i heq2
              refine progress_leafFuelOut ?_
              intro hb
              refine ihF _ heq2 hwfk ?_
              show 4 * (stk.data.length - stk.pos) + 2 ≤ n
              omega
          · exact progress_leafErr
          · exact progress_leafErr
          · rename_i heq1
            refine progress_leafFuelOut ?_
            intro hb
            refine ihF _ heq1 hwf ?_
            show 4 * (st.data.length - st.pos) + 2 ≤ n
            omega
    | setBody st =>
      dsimp only [callState, callCost, okAdvance] at hwf ⊢
      simp only [decodeStep]
      simp only [dbindVals]
      split
      · rename_i vals st2 heq1
        have hadv1 := ihA _ _ _ heq1 hwf
        obtain ⟨e1, q1, r1⟩ := hadv1
        have e1' : st2.data = st.data := e1
        have q1' : st.pos ≤ st2.pos := q1
        have r1' : st2.pos ≤ st.data.length := r1
        exact progress_leafOk ⟨by show st2.data = st.data; exact e1', q1', r1'⟩
      · exact progress_leafErr
      · exact progress_leafErr
      · rename_i heq1
        refine progress_leafFuelOut ?_
        intro hb
        refine ihF _ heq1 hwf ?_
        show 4 * (st.data.length - st.pos) + 3 ≤ n
        omega
    | setVals vals st =>
      dsimp only [callState, callCost, okAdvance] at hwf ⊢
      simp only [decodeStep]
      split
      · exact progress_leafErr
      · rename_i tag hp
        split
        · rw [consumeIgnore_of_peek hp]
          have hlt := peek_ok_lt hp
          split
          · exact progress_leafErr
          · rename_i u st2 hrv
            obtain ⟨e1, q1, r1⟩ :=
              readVarint32_ok (show st.pos + 1 ≤ st.data.length from hlt) hrv
            have e1' : st2.data = st.data := e1
            have q1' : st.pos + 1 < st2.pos := q1
            have r1' : st2.pos ≤ st.data.length := r1
            exact progress_leafOk ⟨e1', by omega, r1'⟩
        · simp only [dbindVal]
          split
          · rename_i val st1 heq1
            have hadv1 : StrictStepsTo st st1 := ihA _ _ _ heq1 hwf
            obtain ⟨e1, q1, r1⟩ := hadv1
            have hwf1 : st1.pos ≤ st1.data.length := by rw [e1]; exact r1
            have hla : st1.data.length = st.data.length := by rw [e1]
            refine ⟨?_, ?_⟩
            · intro hb hfo
              refine ihF _ hfo hwf1 ?_
              show 4 * (st1.data.length - st1.pos) + 3 ≤ n
              omega
            · intro o st1' hok
              have hadv2 : StepsTo st1 st1' := ihA _ _ _ hok hwf1
              obtain ⟨e2, q2, r2⟩ := hadv2
              refine ⟨?_, ?_, ?_⟩
              · show st1'.data = st.data
                rw [e2, e1]
              · show st.pos ≤ st1'.pos
                omega
              · show st1'.pos ≤ st.data.length
                rw [hla] at r2
                exact r2
          · exact progress_leafErr
          · exact progress_leafErr
          · rename_i heq1
            refine progress_leafFuelOut ?_
            intro hb
            refine ihF _ heq1 hwf ?_
            show 4 * (st.data.length - st.pos) + 2 ≤ n
            omega
    | regexpBody st =>
      dsimp only [callState, callCost, okAdvance] at hwf ⊢
      simp only [decodeStep]
      simp only [dbindVal]
      split
      · rename_i pattern st1 heq1
        have hadv1 : StrictStepsTo st st1 := ihA _ _ _ heq1 hwf
        obtain ⟨e1, q1, r1⟩ := hadv1
        have hwf1 : st1.pos ≤ st1.data.length := by rw [e1]; exact r1
        have hla : st1.data.length = st.data.length := by rw [e1]
        split
        · exact progress_leafErr
        · split
          · exact progress_leafErr
          · rename_i flagBits st2 hrv
            obtain ⟨e2, q2, r2⟩ := readVarint32_ok hwf1 hrv
            refine progress_leafOk ⟨?_, ?_, ?_⟩
            · show st2.data = st.data
              rw [e2, e1]
            · show st.pos ≤ st2.pos
              omega
            · show st2.pos ≤ st.data.length
              rw [hla] at r2
              exact r2
      · exact progress_leafErr
      · exact progress_leafErr
      · rename_i heq1
        refine progress_leafFuelOut ?_
        intro hb
        refine ihF _ heq1 hwf ?_
        show 4 * (st.data.length - st.pos) + 2 ≤ n
        omega
    | stringObjBody st =>
      dsimp only [callState, callCost, okAdvance] at hwf ⊢
      simp only [decodeStep]
      simp only [dbindVal]
      split
      · rename_i inner st1 heq1
        have hadv1 : StrictStepsTo st st1 := ihA _ _ _ heq1 hwf
        obtain ⟨e1, q1, r1⟩ := hadv1
        split
        · exact progress_leafErr
        · exact progress_leafOk ⟨by show st1.data = st.data; exact e1,
            by show st.pos ≤ st1.pos; omega, by show st1.pos ≤ st.data.length; exact r1⟩
      · exact progress_leafErr
      · exact progress_leafErr
      · rename_i heq1
        refine progress_leafFuelOut ?_
        intro hb
        refine ihF _ heq1 hwf ?_
        show 4 * (st.data.length - st.pos) + 2 ≤ n
        omega
    | bigintObjBody st =>
      dsimp only [callState, callCost, okAdvance] at hwf ⊢
      simp only [decodeStep]
      simp only [dbindVal]
      split
      · rename_i inner st1 heq1
        have hadv1 : StrictStepsTo st st1 := ihA _ _ _ heq1 hwf
        obtain ⟨e1, q1, r1⟩ := hadv1
        split
        · exact progress_leafErr
        · exact progress_leafOk ⟨by show st1.data = st.data; exact e1,
            by show st.pos ≤ st1.pos; omega, by show st1.pos ≤ st.data.length; exact r1⟩
      · exact progress_leafErr
      · exact progress_leafErr
      · rename_i heq1
        refine progress_leafFuelOut ?_
        intro hb
        refine ihF _ heq1 hwf ?_
        show 4 * (st.data.length - st.pos) + 2 ≤ n
        omega
    | errorBody st =>
      dsimp only [callState, callCost, okAdvance] at hwf ⊢
      simp only [decodeStep]
      split
      · exact progress_leafErr
      · rename_i errType st1 hrb
        obtain ⟨hst1, hlt⟩ := readByte_ok hrb
        subst hst1
        have hwf1 : st.pos + 1 ≤ st.data.length := hlt
        split
        · simp only [dbindVal]
          split
          · rename_i val st2 heq1
            have hadv1 := ihA _ _ _ heq1 hwf1
            obtain ⟨e1, q1, r1⟩ := hadv1
            have e1' : st2.data = st.data := e1
            have q1' : st.pos + 1 < st2.pos := q1
            have r1' : st2.pos ≤ st.data.length := r1
            have hwf2 : st2.pos ≤ st2.data.length := by rw [e1']; exact r1'
            have hla : st2.data.length = st.data.length := by rw [e1']
            simp only [dbindErrf]
            split
            · rename_i f st3 heq2
              have hadv2 : StepsTo st2 st3 := ihA _ _ _ heq2 hwf2
              obtain ⟨e2, q2, r2⟩ := hadv2
              refine progress_leafOk ⟨?_, ?_, ?_⟩
              · show st3.data = st.data
                rw [e2, e1']
              · show st.pos ≤ st3.pos
                omega
              · show st3.pos ≤ st.data.length
                rw [hla] at r2
                exact r2
            · exact progress_leafErr
            · exact progress_leafErr
            · rename_i heq2
              refine progress_leafFuelOut ?_
              intro hb
              refine ihF _ heq2 hwf2 ?_
              show 4 * (st2.data.length - st2.pos) + 3 ≤ n
              omega
          · exact progress_leafErr
          · exact progress_leafErr
          · rename_i heq1
            refine progress_leafFuelOut ?_
            intro hb
            refine ihF _ heq1 hwf1 ?_
            show 4 * (st.data.length - (st.pos + 1)) + 2 ≤ n
            omega
        · simp only [dbindErrf]
          split
          · rename_i f st3 heq2
            have hadv2 := ihA _ _ _ heq2 hwf1
            obtain ⟨e2, q2, r2⟩ := hadv2
            have e2' : st3.data = st.data := e2
            have q2' : st.pos + 1 ≤ st3.pos := q2
            have r2' : st3.pos ≤ st.data.length := r2
            exact progress_leafOk ⟨by show st3.data = st.data; exact e2',
              by show st.pos ≤ st3.pos; omega, by show st3.pos ≤ st.data.length; exact r2'⟩
          · exact progress_leafErr
          · exact progress_leafErr
          · rename_i heq2
            refine progress_leafFuelOut ?_
            intro hb
            refine ihF _ heq2 hwf1 ?_
            show 4 * (st.data.length - (st.pos + 1)) + 3 ≤ n
            omega
    | errorProps f st =>
      dsimp only [callState, callCost, okAdvance] at hwf ⊢
      simp only [decodeStep]
      split
      · exact progress_leafErr
      · rename_i subTag st1 hrb
        obtain ⟨hst1, hlt⟩ := readByte_ok hrb
        subst hst1
        have hwf1 : st.pos + 1 ≤ st.data.length := hlt
        split
        · exact progress_leafOk ⟨rfl, by show st.pos ≤ st.pos + 1; omega, hwf1⟩
        · simp only [dbindVal]
          split
          · rename_i val st2 heq1
            have hadv1 := ihA _ _ _ heq1 hwf1
            obtain ⟨e1, q1, r1⟩ := hadv1
            have e1' : st2.data = st.data := e1
            have q1' : st.pos + 1 < st2.pos := q1
            have r1' : st2.pos ≤ st.data.length := r1
            have hwf2 : st2.pos ≤ st2.data.length := by rw [e1']; exact r1'
            have hla : st2.data.length = st.data.length := by rw [e1']
            refine ⟨?_, ?_⟩
            · intro hb hfo
              refine ihF _ hfo hwf2 ?_
              show 4 * (st2.data.length - st2.pos) + 3 ≤ n
              omega
            · intro o st1' hok
              have hadv2 : StepsTo st2 st1' := ihA _ _ _ hok hwf2
              obtain ⟨e2, q2, r2⟩ := hadv2
              refine ⟨?_, ?_, ?_⟩
              · show st1'.data = st.data
                rw [e2, e1']
              · show st.pos ≤ st1'.pos
                omega
              · show st1'.pos ≤ st.data.length
                rw [hla] at r2
                exact r2
          · exact progress_leafErr
          · exact progress_leafErr
          · rename_i heq1
            refine progress_leafFuelOut ?_
            intro hb
            refine ihF _ heq1 hwf1 ?_
            show 4 * (st.data.length - (st.pos + 1)) + 2 ≤ n
            omega

theorem readHeader_ok {st : DState} {u : Unit} {st1 : DState}
    (hwf : st.pos ≤ st.data.length) (h : readHeader st = .ok (u, st1)) :
    st1.data = st.data ∧ st1.pos ≤ st.data.length := by
  unfold readHeader at h
  rcases hrb : readByte st with e | ⟨tag, st2⟩
  · rw [hrb] at h; exact absurd h (by simp)
  · rw [hrb] at h
    dsimp only [] at h
    obtain ⟨hst2, hlt⟩ := readByte_ok hrb
    subst hst2
    split at h
    · exact absurd h (by simp)
    · rcases hrv : readVarint32 { st with pos := st.pos + 1 } with e | ⟨version, st3⟩
      · rw [hrv] at h; exact absurd h (by simp)
      · rw [hrv] at h
        dsimp only [] at h
        obtain ⟨e1, q1, r1⟩ :=
          readVarint32_ok (show st.pos + 1 ≤ st.data.length from hlt) hrv
        split at h
        · exact absurd h (by simp)
        · cases h
          constructor
          · show st3.data = st.data
            exact e1
          · show st3.pos ≤ st.data.length
            exact r1

/-- The fuel `4 * |data| + 8` given to the fueled decoder is sufficient
(`decoder_progress`), so decoding never runs out of fuel: the Go
recursion always terminates. Termination is not the no-panic claim:
one of the terminal outcomes (`panicSliceBounds`) is a run-time panic
of the program, not an error return. -/
theorem deserialize_terminates (data : List Nat) (opts : DOpts) :
    (∃ v st, deserialize data opts = DRes.ok v st) ∨
    (∃ e, deserialize data opts = DRes.err e) := by
  simp only [deserialize, deserializeF]
  split
  · exact Or.inr ⟨.maxSizeExceeded, rfl⟩
  · rcases hh : readHeader (initState data opts) with e | ⟨u, st1⟩
    · exact Or.inr ⟨e, rfl⟩
    · obtain ⟨hd1, hl1⟩ :=
        readHeader_ok (show (0 : Nat) ≤ data.length from Nat.zero_le _) hh
      have hd1' : st1.data = data := hd1
      have hl1' : st1.pos ≤ data.length := hl1
      have hwf1 : st1.pos ≤ st1.data.length := by rw [hd1']; exact hl1'
      have hprog := decoder_progress (4 * data.length + 8) (.value st1) hwf1
      rcases hres : decodeRun (4 * data.length + 8) (.value st1) with ⟨o, st2⟩ | e | _
      · rcases o with v | _ | h2 | l | l | f
        · refine Or.inl ⟨v, st2, ?_⟩
          show readValueF (4 * data.length + 8) st1 = .ok v st2
          rw [readValueF, hres]
        · refine Or.inr ⟨.malformedData, ?_⟩
          show readValueF (4 * data.length + 8) st1 = .err .malformedData
          rw [readValueF, hres]
        · refine Or.inr ⟨.malformedData, ?_⟩
          show readValueF (4 * data.length + 8) st1 = .err .malformedData
          rw [readValueF, hres]
        · refine Or.inr ⟨.malformedData, ?_⟩
          show readValueF (4 * data.length + 8) st1 = .err .malformedData
          rw [readValueF, hres]
        · refine Or.inr ⟨.malformedData, ?_⟩
          show readValueF (4 * data.length + 8) st1 = .err .malformedData
          rw [readValueF, hres]
        · refine Or.inr ⟨.malformedData, ?_⟩
          show readValueF (4 * data.length + 8) st1 = .err .malformedData
          rw [readValueF, hres]
      · refine Or.inr ⟨e, ?_⟩
        show readValueF (4 * data.length + 8) st1 = .err e
        rw [readValueF, hres]
      · exfalso
        refine hprog.1 ?_ hres
        show 4 * (st1.data.length - st1.pos) + 2 ≤ 4 * data.length + 8
        have hle : st1.data.length = data.length := by rw [hd1']
        omega

/-- The 13-byte payload `ff 0f 5a fe ff ff ff ff ff ff ff ff 01`:
version 15 header, BigInt tag `Z`, then the varint encoding of
`2^64 - 2`, so the bitfield's sign bit is 0 and the declared byte
length is `2^63 - 1`. -/
def bigintPanicBytes : List Nat :=
  [255, 15, 90, 254, 255, 255, 255, 255, 255, 255, 255, 255, 1]

/-- C3: the no-panic claim is false of the program. On the 13-byte
payload `ff 0f 5a fe ff ff ff ff ff ff ff ff 01` (a BigInt whose
bitfield varint is `2^64 - 2`, hence declared byte length `2^63 - 1`),
`readBigInt` calls `Reader.ReadBytes(int(byteLength))`; there the bounds
check computes `r.pos + n` in wrapping 64-bit `int` arithmetic, the sum
overflows to a negative value, the check passes, and the slice
expression `r.data[r.pos : r.pos+n]` panics with a slice-bounds
run-time error instead of returning `ErrUnexpectedEOF`: `Deserialize`
crashes on this adversarial input (the `panicSliceBounds` outcome of
the model). -/
theorem c3_bigint_length_panics :
    deserialize bigintPanicBytes defaultOpts = DRes.err DErr.panicSliceBounds := by
  rfl
